import Mathlib

/-!
Verification of the schema-processing engine of `render-tabular-json-schema`
(`src/app.js`) against its natural-language specification.

The JavaScript source is shallowly embedded: JSON values become the `Json`
inductive, JavaScript member access / truthiness / `Map` semantics become
explicit Lean functions, and code that can raise a `TypeError` is modelled in
`Except Unit`.  Recursive extraction is bounded by an explicit fuel parameter
modelling the call stack; fuel exhaustion is an error, mirroring stack
exhaustion (the source has no cycle guard).

Spec-side counterparts (`spec...` definitions) restate the specification's
wording and are proved equivalent to the embedded code where the claims hold.
-/

/-- A parsed JSON value, as produced by `JSON.parse`: object fields are kept
in document order (`orderKeys` below reproduces the runtime's own-property
enumeration order when the object is traversed). -/
inductive Json where
  | null
  | bool (b : Bool)
  | num (n : Int)
  | str (s : String)
  | arr (elts : List Json)
  | obj (fields : List (String × Json))

/-- JavaScript truthiness of a value (`NaN` is not representable here). -/
def truthy : Json → Bool
  | .null => false
  | .bool b => b
  | .num n => n != 0
  | .str s => s != ""
  | .arr _ => true
  | .obj _ => true

/-- Whether a value is the JSON `null`. -/
def Json.isNull : Json → Bool
  | .null => true
  | _ => false

/-- Whether a value is a JSON string. -/
def Json.isStr : Json → Bool
  | .str _ => true
  | _ => false

/-- JavaScript SameValueZero comparison as used by `Map` keys and
`Array.prototype.includes`.  Arrays and objects compare by reference in
JavaScript; distinct parsed documents are never identical, so composite
values never compare equal here. -/
def sameValueZero : Json → Json → Bool
  | .null, .null => true
  | .bool a, .bool b => a == b
  | .num a, .num b => a == b
  | .str a, .str b => a == b
  | _, _ => false

/-- Parse a string as a canonical array index (the keys the runtime
enumerates numerically first): digits only, no leading zero except `"0"`,
value below `2^32 - 1`. -/
def parseArrayIndex (k : String) : Option Nat :=
  let rec digitsVal : List Char → Option Nat → Option Nat
    | [], acc => acc
    | c :: cs, acc =>
      if c.isDigit then
        digitsVal cs (acc.map (fun n => n * 10 + (c.toNat - 48)))
      else none
  match k.data with
  | [] => none
  | ['0'] => some 0
  | c :: cs =>
    if c == '0' then none
    else match digitsVal (c :: cs) (some 0) with
      | some n => if n < 4294967295 then some n else none
      | none => none

/-- Insert into a list sorted by the numeric key (ascending). -/
def insertIdxSorted (x : Nat × String × α) : List (Nat × String × α) → List (Nat × String × α)
  | [] => [x]
  | y :: ys => if x.1 < y.1 then x :: y :: ys else y :: insertIdxSorted x ys

/-- Insertion sort by the numeric key. -/
def isortIdx : List (Nat × String × α) → List (Nat × String × α)
  | [] => []
  | x :: xs => insertIdxSorted x (isortIdx xs)

/-- The runtime's own-property enumeration order over a field list:
array-index-like keys first in ascending numeric order, then the remaining
keys in insertion order. -/
def orderKeys (fs : List (String × α)) : List (String × α) :=
  let idxed := fs.filterMap (fun p =>
    match parseArrayIndex p.1 with
    | some n => some (n, p.1, p.2)
    | none => none)
  let rest := fs.filter (fun p => (parseArrayIndex p.1).isNone)
  (isortIdx idxed).map (fun q => (q.2.1, q.2.2)) ++ rest

/-- `Object.entries` on a truthy value (never called on `null`/`undefined`). -/
def jsEntries : Json → List (String × Json)
  | .obj fs => orderKeys fs
  | .arr xs => xs.enum.map (fun p => (toString p.1, p.2))
  | .str s => s.data.enum.map (fun p => (toString p.1, Json.str (String.mk [p.2])))
  | _ => []

/-- `Object.keys` on a truthy value. -/
def jsKeys (v : Json) : List String :=
  (jsEntries v).map (fun p => p.1)

/-- Pure member access `v[k]` for a non-null receiver: `none` models
`undefined`.  Array and string receivers expose `length` and their canonical
index keys; other primitives have no own data properties. -/
def getMember : Json → String → Option Json
  | .null, _ => none
  | .obj fs, k => (fs.find? (fun p => p.1 == k)).map (fun p => p.2)
  | .arr xs, k =>
    if k == "length" then some (.num xs.length)
    else match parseArrayIndex k with
      | some i => xs.get? i
      | none => none
  | .str s, k =>
    if k == "length" then some (.num s.data.length)
    else match parseArrayIndex k with
      | some i => (s.data.get? i).map (fun c => Json.str (String.mk [c]))
      | none => none
  | _, _ => none

/-- Member access `v[k]` with JavaScript error behaviour: accessing a
property of `null` raises a `TypeError`. -/
def jsGetProp (v : Json) (k : String) : Except Unit (Option Json) :=
  match v with
  | .null => .error ()
  | _ => .ok (getMember v k)

/-- Substring containment over lists (`String.prototype.includes`). -/
def listContainsSub [BEq α] : List α → List α → Bool
  | _, [] => true
  | [], _ :: _ => false
  | h :: t, p :: ps => (List.isPrefixOf (p :: ps) (h :: t)) || listContainsSub t (p :: ps)

/-- `v.includes(name)` as invoked on `schemaNode.required`: array membership
by SameValueZero, substring test on strings, `TypeError` otherwise. -/
def jsIncludes (v : Json) (name : String) : Except Unit Bool :=
  match v with
  | .arr xs => .ok (xs.any (fun x => sameValueZero x (.str name)))
  | .str s => .ok (listContainsSub s.data name.data)
  | _ => .error ()

/-- `for (const x of v)`: arrays iterate elements, strings iterate
characters, anything else raises a `TypeError`. -/
def jsIterate : Json → Except Unit (List Json)
  | .arr xs => .ok xs
  | .str s => .ok (s.data.map (fun c => Json.str (String.mk [c])))
  | _ => .error ()

/-- The Schema Store: a `Map` from identifiers to documents in insertion
order (`Map.set` keeps the position of an existing key). -/
abbrev Store := List (Json × Json)

/-- `Map.prototype.set`: overwrite in place when the key is present
(SameValueZero), append otherwise. -/
def mapSet (m : Store) (k v : Json) : Store :=
  if (List.any m (fun p => sameValueZero p.1 k)) then
    List.map (fun p => if sameValueZero p.1 k then (p.1, v) else p) m
  else m ++ [(k, v)]

/-- `Map.prototype.get` with a string key. -/
def storeGet (m : Store) (r : String) : Option Json :=
  (List.find? (fun p => sameValueZero p.1 (.str r)) m).map (fun p => p.2)

/-- Split a character list on a separator character, `String.prototype.split`
style (always at least one group). -/
def splitChar (sep : Char) : List Char → List (List Char)
  | [] => [[]]
  | c :: cs =>
    let r := splitChar sep cs
    if c == sep then [] :: r
    else match r with
      | [] => [[c]]
      | g :: gs => (c :: g) :: gs

/-- The path segments of an internal reference: `ref.substring(2).split('/')`. -/
def refSegments (r : String) : List String :=
  (splitChar '/' (r.data.drop 2)).map String.mk

/-- Whether the reference string begins with `#`. -/
def startsWithHash (r : String) : Bool :=
  match r.data with
  | '#' :: _ => true
  | [] => false
  | _ :: _ => false

/-- `a.endsWith(b)` for strings. -/
def strEndsWith (a b : String) : Bool :=
  List.isSuffixOf b.data a.data

/-- The internal-pointer walk of `resolveRef`: index by each segment in turn,
returning `null` as soon as the current value becomes falsy (`undefined`
included); indexing into `null` raises. -/
def walkPath : Json → List String → Except Unit (Option Json)
  | cur, [] => .ok (some cur)
  | cur, seg :: rest =>
    match jsGetProp cur seg with
    | .error e => .error e
    | .ok none => .ok none
    | .ok (some v) => if truthy v then walkPath v rest else .ok none

/-- The external-reference scan of `resolveRef`: first stored entry whose
identifier suffix-matches the reference in either direction; a non-string
identifier raises (`id.endsWith` is not a function). -/
def externalScan (r : String) : Store → Except Unit (Option Json)
  | [] => .ok none
  | (id, schema) :: rest =>
    match id with
    | .str s =>
      if strEndsWith s r || strEndsWith r s then .ok (some schema)
      else externalScan r rest
    | _ => .error ()

/-- `SchemaProcessor.resolveRef` on a string reference. -/
def resolveRefStr (store : Store) (r : String) (base : Json) : Except Unit (Option Json) :=
  if startsWithHash r then
    walkPath base (refSegments r)
  else
    match externalScan r store with
    | .error e => .error e
    | .ok (some s) => .ok (some s)
    | .ok none =>
      .ok (match storeGet store r with
        | some v => if truthy v then some v else none
        | none => none)

/-- `SchemaProcessor.resolveRef`: a non-string reference raises
(`ref.startsWith` is not a function). -/
def resolveRef (store : Store) (ref : Json) (base : Json) : Except Unit (Option Json) :=
  match ref with
  | .str r => resolveRefStr store r base
  | _ => .error ()

/-- One flattened table row produced by the Property Extractor.  `category`
is a JSON value (`Json.null` when absent) because a branch title need not be
a string. -/
structure ExtractedProperty where
  category : Json
  name : String
  schema : Json
  required : Bool

/-- Effectful `List.mapM` over `Except Unit`, stopping at the first error. -/
def exMapM (f : α → Except Unit β) : List α → Except Unit (List β)
  | [] => .ok []
  | a :: as =>
    match f a with
    | .error e => .error e
    | .ok b =>
      match exMapM f as with
      | .error e => .error e
      | .ok bs => .ok (b :: bs)

/-- The direct-properties pass of `extractProperties`: one row per entry of
`schema.properties` with `required = schema.required?.includes(name) || false`. -/
def extractDirect (schema cat : Json) : Except Unit (List ExtractedProperty) :=
  match jsGetProp schema "properties" with
  | .error e => .error e
  | .ok none => .ok []
  | .ok (some pv) =>
    if truthy pv then
      exMapM (fun e =>
        match jsGetProp schema "required" with
        | .error err => .error err
        | .ok none => .ok (ExtractedProperty.mk cat e.1 e.2 false)
        | .ok (some rv) =>
          if rv.isNull then .ok (ExtractedProperty.mk cat e.1 e.2 false)
          else
            match jsIncludes rv e.1 with
            | .error err => .error err
            | .ok b => .ok (ExtractedProperty.mk cat e.1 e.2 b)) (jsEntries pv)
    else .ok []

/-- The body of the `allOf` loop of `extractProperties` for one branch:
a truthy `$ref` is resolved against `schema` (a failed or falsy resolution
contributes nothing); a resolved document recurses with
`resolved.title || category`; otherwise the branch recurses inline with the
caller's category.  `recur` is the recursive call at one level deeper. -/
def extractAllOfBranch (store : Store)
    (recur : Json → Json → Except Unit (List ExtractedProperty))
    (schema cat sub : Json) : Except Unit (List ExtractedProperty) :=
  match jsGetProp sub "$ref" with
  | .error e => .error e
  | .ok (some rv) =>
    if truthy rv then
      match resolveRef store rv schema with
      | .error e => .error e
      | .ok (some res) =>
        if truthy res then
          match jsGetProp res "title" with
          | .error e => .error e
          | .ok (some t) => recur res (if truthy t then t else cat)
          | .ok none => recur res cat
        else .ok []
      | .ok none => .ok []
    else recur sub cat
  | .ok none => recur sub cat

/-- The `allOf` loop of `extractProperties`: branch results concatenated in
branch order. -/
def extractAllOfBranches (store : Store)
    (recur : Json → Json → Except Unit (List ExtractedProperty))
    (schema cat : Json) : List Json → Except Unit (List ExtractedProperty)
  | [] => .ok []
  | sub :: rest =>
    match extractAllOfBranch store recur schema cat sub with
    | .error e => .error e
    | .ok part =>
      match extractAllOfBranches store recur schema cat rest with
      | .error e => .error e
      | .ok parts => .ok (part ++ parts)

/-- `SchemaProcessor.extractProperties`, with fuel bounding recursion depth
(fuel exhaustion models stack exhaustion; the source has no cycle guard). -/
def extractProperties (store : Store) : Nat → Json → Json → Except Unit (List ExtractedProperty)
  | 0, _, _ => .error ()
  | f + 1, schema, cat =>
    match extractDirect schema cat with
    | .error e => .error e
    | .ok direct =>
      match jsGetProp schema "allOf" with
      | .error e => .error e
      | .ok (some av) =>
        if truthy av then
          match jsIterate av with
          | .error e => .error e
          | .ok branches =>
            match extractAllOfBranches store (fun s c => extractProperties store f s c)
                schema cat branches with
            | .error e => .error e
            | .ok parts => .ok (direct ++ parts)
        else .ok direct
      | .ok none => .ok direct

/-- The keyword columns excluded from aggregation (`collectKeywordUsage`). -/
def excludedKeywords : List String :=
  ["$schema", "$id", "$ref", "properties", "items", "allOf", "anyOf", "oneOf",
   "enumDescriptions"]

/-- Increment one keyword's count in the usage map
(`keywordUsage.get(k) || 0`, then `set`, keeping map position). -/
def bumpKeyword (usage : List (String × Nat)) (kw : String) : List (String × Nat) :=
  let count := match List.find? (fun p => p.1 == kw) usage with
    | some p => p.2
    | none => 0
  if List.any usage (fun p => p.1 == kw) then
    List.map (fun p => if p.1 == kw then (p.1, count + 1) else p) usage
  else usage ++ [(kw, count + 1)]

/-- Count all non-excluded keys of one property's schema fragment. -/
def collectOneSchema (usage : List (String × Nat)) (schema : Json) : List (String × Nat) :=
  (jsKeys schema).foldl
    (fun u kw => if excludedKeywords.contains kw then u else bumpKeyword u kw) usage

/-- The aggregation loop of `collectKeywordUsage`; `Object.keys(null)` raises
a `TypeError`. -/
def collectKeywordUsageAux (usage : List (String × Nat)) :
    List ExtractedProperty → Except Unit (List (String × Nat))
  | [] => .ok usage
  | p :: ps =>
    match p.schema with
    | .null => .error ()
    | s => collectKeywordUsageAux (collectOneSchema usage s) ps

/-- `SchemaProcessor.collectKeywordUsage` over an extracted property list. -/
def collectKeywordUsage (props : List ExtractedProperty) : Except Unit (List (String × Nat)) :=
  collectKeywordUsageAux [] props

/-- The table-data view handed to the Column Model and Renderer. -/
structure TableData where
  title : Json
  description : Json
  properties : List ExtractedProperty

/-- `this.mainSchema.title || 'Dataset Schema'`. -/
def tableTitle (m : Json) : Json :=
  match getMember m "title" with
  | some t => if truthy t then t else .str "Dataset Schema"
  | none => .str "Dataset Schema"

/-- `this.mainSchema.description || ''`. -/
def tableDescription (m : Json) : Json :=
  match getMember m "description" with
  | some d => if truthy d then d else .str ""
  | none => .str ""

/-- `SchemaProcessor.getTableData`: resolve a single `$ref` hop on `items`,
then extract; returns `null` when there is no truthy main schema or the item
schema is absent/falsy after the hop. -/
def getTableData (store : Store) (mainSchema : Option Json) (fuel : Nat) :
    Except Unit (Option TableData) :=
  match mainSchema with
  | none => .ok none
  | some m =>
    if truthy m then
      match jsGetProp m "items" with
      | .error e => .error e
      | .ok itemsV =>
        let hop : Except Unit (Option Json) :=
          match itemsV with
          | none => .ok none
          | some it =>
            if it.isNull then .ok (some it)
            else
              match getMember it "$ref" with
              | some rv =>
                if truthy rv then
                  match resolveRef store rv m with
                  | .error e => .error e
                  | .ok o => .ok o
                else .ok (some it)
              | none => .ok (some it)
        match hop with
        | .error e => .error e
        | .ok none => .ok none
        | .ok (some it2) =>
          if truthy it2 then
            match extractProperties store fuel it2 .null with
            | .error e => .error e
            | .ok props => .ok (some ⟨tableTitle m, tableDescription m, props⟩)
          else .ok none
    else .ok none

/-- The main-schema predicate of the load loop:
`schema.type === 'array' && schema.items` (truthy). -/
def mainPred (schema : Json) : Bool :=
  (match getMember schema "type" with
   | some (.str t) => t == "array"
   | _ => false) &&
  (match getMember schema "items" with
   | some v => truthy v
   | none => false)

/-- One iteration of the load loop of `processFiles`: store the document
under its truthy `$id`, else under the file name; remember it as main schema
when it satisfies the predicate.  Accessing `$id` on a `null` document
raises. -/
def loadStep (acc : Store × Option Json) (f : String × Json) :
    Except Unit (Store × Option Json) :=
  match jsGetProp f.2 "$id" with
  | .error e => .error e
  | .ok idV =>
    let key : Json := match idV with
      | some i => if truthy i then i else .str f.1
      | none => .str f.1
    let store := mapSet acc.1 key f.2
    let ms := if mainPred f.2 then some f.2 else acc.2
    .ok (store, ms)

/-- The load loop of `processFiles` over already-parsed documents. -/
def loadSchemas : List (String × Json) → Except Unit (Store × Option Json) :=
  let rec go (acc : Store × Option Json) : List (String × Json) → Except Unit (Store × Option Json)
    | [] => .ok acc
    | f :: fs =>
      match loadStep acc f with
      | .error e => .error e
      | .ok acc2 => go acc2 fs
  go ([], none)

/-- The tail of `processFiles` once loading and the single-document fallback
have fixed the main schema: aggregate keywords when the main schema is
truthy, and report `mainSchema !== null`. -/
def processLoaded (store : Store) (ms : Option Json) (fuel : Nat) :
    Except Unit (Store × Option Json × List (String × Nat) × Bool) :=
  match ms with
  | some m =>
    if truthy m then
      match getTableData store (some m) fuel with
      | .error e => .error e
      | .ok td =>
        match collectKeywordUsage (match td with
            | some t => t.properties
            | none => []) with
        | .error e => .error e
        | .ok usage => .ok (store, some m, usage, true)
    else .ok (store, some m, [], true)
  | none => .ok (store, none, [], false)

/-- The single-document fallback: when no main schema was identified and the
store holds exactly one entry, that entry's document becomes the main
schema. -/
def fallbackMs (ms0 : Option Json) (store : Store) : Option Json :=
  match ms0, store with
  | none, [(_, v)] => some v
  | _, _ => ms0

/-- `SchemaProcessor.processFiles` over parsed documents: load, apply the
single-document fallback (`schemas.size === 1`), then `processLoaded`. -/
def processFiles (files : List (String × Json)) (fuel : Nat) :
    Except Unit (Store × Option Json × List (String × Nat) × Bool) :=
  match loadSchemas files with
  | .error e => .error e
  | .ok (store, ms0) => processLoaded store (fallbackMs ms0 store) fuel

/-! ### Spec-side definitions

These restate the specification's wording, to be compared with the embedded
source functions. -/

/-- Spec wording of the internal-pointer walk: walk the base document key by
key, failing as soon as a segment is missing or resolves to a falsy value,
otherwise returning the value reached. -/
def specWalk : Json → List String → Option Json
  | cur, [] => some cur
  | cur, seg :: rest =>
    match getMember cur seg with
    | none => none
    | some v => if truthy v then specWalk v rest else none

/-- Spec wording of internal resolution: strip the leading `#/`, split the
remainder on `/`, and walk the base document. -/
def specResolveInternal (r : String) (base : Json) : Option Json :=
  specWalk base (refSegments r)

/-- The spec's wording of the external match: a string identifier that is a
suffix of the reference or of which the reference is a suffix. -/
def scanPred (r : String) (p : Json × Json) : Bool :=
  match p.1 with
  | .str s => strEndsWith s r || strEndsWith r s
  | _ => false

/-- Spec wording of external resolution: scan the store's identifiers in
insertion order for the first suffix-match in either direction, then fall
back to an exact lookup of the reference as a literal store key. -/
def specResolveExternal (store : Store) (r : String) : Option Json :=
  match List.find? (scanPred r) store with
  | some p => some p.2
  | none => storeGet store r

/-- Total resolution combining both spec cases (used by the pure extraction
restatement; unreachable cases pick `none`). -/
def specResolve (store : Store) (ref : Json) (base : Json) : Option Json :=
  match ref with
  | .str r =>
    if startsWithHash r then specResolveInternal r base
    else specResolveExternal store r
  | _ => none

/-- Pure counterpart of `jsIncludes` (the raising cases are unreachable when
the embedded code returns successfully). -/
def jsIncludesPure (v : Json) (name : String) : Bool :=
  match v with
  | .arr xs => xs.any (fun x => sameValueZero x (.str name))
  | .str s => listContainsSub s.data name.data
  | _ => false

/-- Spec wording of the required flag:
`required = schemaNode.required?.includes(name)`. -/
def specRequired (schema : Json) (name : String) : Bool :=
  match getMember schema "required" with
  | none => false
  | some rv => if rv.isNull then false else jsIncludesPure rv name

/-- Pure counterpart of `jsIterate`. -/
def iterElems : Json → List Json
  | .arr xs => xs
  | .str s => s.data.map (fun c => Json.str (String.mk [c]))
  | _ => []

/-- Spec wording of one `allOf` branch: a `$ref` branch recurses into the
resolved document with `resolved.title || category`; a failed or falsy
resolution contributes nothing; an inline branch recurses with the caller's
category. -/
def specBranch (store : Store) (recur : Json → Json → List ExtractedProperty)
    (schema cat sub : Json) : List ExtractedProperty :=
  match getMember sub "$ref" with
  | some rv =>
    if truthy rv then
      match specResolve store rv schema with
      | some res =>
        if truthy res then
          recur res
            (match getMember res "title" with
             | some t => if truthy t then t else cat
             | none => cat)
        else []
      | none => []
    else recur sub cat
  | none => recur sub cat

/-- Spec wording of extraction: one row per entry of `properties` in the
runtime's enumeration order, followed by the flattened recursive results of
each `allOf` branch in branch order; a node with neither yields nothing. -/
def specExtract (store : Store) : Nat → Json → Json → List ExtractedProperty
  | 0, _, _ => []
  | f + 1, schema, cat =>
    let direct : List ExtractedProperty :=
      match getMember schema "properties" with
      | some pv =>
        if truthy pv then
          (jsEntries pv).map (fun e =>
            ExtractedProperty.mk cat e.1 e.2 (specRequired schema e.1))
        else []
      | none => []
    let branchParts : List (List ExtractedProperty) :=
      match getMember schema "allOf" with
      | some av =>
        if truthy av then
          (iterElems av).map
            (specBranch store (fun s c => specExtract store f s c) schema cat)
        else []
      | none => []
    direct ++ branchParts.flatten

/-- The last loaded document satisfying the main-schema predicate. -/
def lastMatching : List (String × Json) → Option Json
  | [] => none
  | (_, d) :: rest =>
    match lastMatching rest with
    | some x => some x
    | none => if mainPred d then some d else none

/-- Whether every store identifier is a string. -/
def allStrKeys (store : Store) : Bool :=
  store.all (fun p => p.1.isStr)

/-- Duplicate-freedom of an object's keys (JavaScript objects cannot hold a
key twice, so parsed documents always satisfy this). -/
def nodupKeys : List (String × Json) → Bool
  | [] => true
  | p :: ps => !((ps.map (fun q => q.1)).contains p.1) && nodupKeys ps

/-- A well-formed property fragment for keyword aggregation: an object with
duplicate-free keys. -/
def wfFragment : Json → Bool
  | .obj fs => nodupKeys fs
  | _ => false

/-- Whether an object fragment contains a key. -/
def hasOwnKey (v : Json) (k : String) : Bool :=
  match v with
  | .obj fs => (fs.map (fun q => q.1)).contains k
  | _ => false

/-- The count recorded for a keyword in the usage map (0 when absent). -/
def usageCount (usage : List (String × Nat)) (k : String) : Nat :=
  match List.find? (fun p => p.1 == k) usage with
  | some p => p.2
  | none => 0

/-! ### The CSV renderer (`TableRenderer.exportToCSV` and its helpers) -/

/-- Join strings with a separator. -/
def intercalateOwn (sep : String) : List String → String
  | [] => ""
  | [x] => x
  | x :: y :: xs => x ++ sep ++ intercalateOwn sep (y :: xs)

mutual
/-- JavaScript `String(v)` coercion: arrays join their elements with commas
(`null` elements becoming empty), objects print as `[object Object]`. -/
def jsToString : Json → String
  | .null => "null"
  | .bool b => if b then "true" else "false"
  | .num n => toString n
  | .str s => s
  | .arr xs => jsJoin "," xs
  | .obj _ => "[object Object]"

/-- `Array.prototype.join`: elements coerced with `String`, except `null`
(and `undefined`) which become empty strings. -/
def jsJoin (sep : String) : List Json → String
  | [] => ""
  | [x] => jsElemStr x
  | x :: y :: xs => jsElemStr x ++ sep ++ jsJoin sep (y :: xs)

/-- One joined element: `null` renders empty. -/
def jsElemStr : Json → String
  | .null => ""
  | v => jsToString v
end

/-- Lowercase hexadecimal digit. -/
def hexDigit (n : Nat) : Char :=
  if n < 10 then Char.ofNat (48 + n) else Char.ofNat (87 + n)

/-- `JSON.stringify` escaping of one character inside a string literal. -/
def escapeJsonChar (c : Char) : List Char :=
  if c == '"' then ['\\', '"']
  else if c == '\\' then ['\\', '\\']
  else if c == '\n' then ['\\', 'n']
  else if c == '\t' then ['\\', 't']
  else if c == '\r' then ['\\', 'r']
  else if c.toNat == 8 then ['\\', 'b']
  else if c.toNat == 12 then ['\\', 'f']
  else if c.toNat < 32 then
    ['\\', 'u', '0', '0', hexDigit (c.toNat / 16), hexDigit (c.toNat % 16)]
  else [c]

/-- `JSON.stringify` rendering of a string. -/
def quoteJson (s : String) : String :=
  String.mk ('"' :: (s.data.flatMap escapeJsonChar ++ ['"']))

mutual
/-- `JSON.stringify(v)` (no indentation, as used by the CSV export); object
members serialize in the runtime's own-property order. -/
def jsonStringify : Json → String
  | .null => "null"
  | .bool b => if b then "true" else "false"
  | .num n => toString n
  | .str s => quoteJson s
  | .arr xs => "[" ++ intercalateOwn "," (renderElems xs) ++ "]"
  | .obj fs =>
    "\x7b" ++ intercalateOwn ","
      ((orderKeys (renderFields fs)).map (fun p => quoteJson p.1 ++ ":" ++ p.2)) ++ "\x7d"

/-- Serialize each field value, keeping keys. -/
def renderFields : List (String × Json) → List (String × String)
  | [] => []
  | (k, v) :: fs => (k, jsonStringify v) :: renderFields fs

/-- Serialize each array element. -/
def renderElems : List Json → List String
  | [] => []
  | v :: vs => jsonStringify v :: renderElems vs
end

/-- The display names of `ColumnManager.columnDefinitions`. -/
def columnDisplays : List (String × String) :=
  [("name", "Variable Name"), ("description", "Description"), ("type", "Data Type"),
   ("format", "Format"), ("enum", "Valid Values"), ("required", "Required"),
   ("default", "Default"), ("const", "Constant"), ("minimum", "Min"),
   ("maximum", "Max"), ("exclusiveMinimum", "Exclusive Min"),
   ("exclusiveMaximum", "Exclusive Max"), ("minLength", "Min Length"),
   ("maxLength", "Max Length"), ("pattern", "Pattern"), ("multipleOf", "Multiple Of"),
   ("minItems", "Min Items"), ("maxItems", "Max Items"), ("uniqueItems", "Unique Items"),
   ("minProperties", "Min Properties"), ("maxProperties", "Max Properties"),
   ("deprecated", "Deprecated"), ("readOnly", "Read Only"), ("writeOnly", "Write Only"),
   ("title", "Title"), ("examples", "Examples"), ("additionalInfo", "Additional Info")]

/-- Strip leading and trailing whitespace. -/
def trimSpaces (cs : List Char) : List Char :=
  ((cs.dropWhile (fun c => c == ' ' || c == '\t' || c == '\n' || c == '\r')).reverse.dropWhile
    (fun c => c == ' ' || c == '\t' || c == '\n' || c == '\r')).reverse

/-- `ColumnManager.formatKeywordDisplay`: space before each ASCII capital,
capitalize the first character, trim. -/
def formatKeywordDisplay (kw : String) : String :=
  let expanded := kw.data.flatMap (fun c => if 'A' ≤ c && c ≤ 'Z' then [' ', c] else [c])
  let upped := match expanded with
    | [] => []
    | c :: cs => c.toUpper :: cs
  String.mk (trimSpaces upped)

/-- `ColumnManager.getColumnDefinition`, display name only. -/
def displayOf (col : String) : String :=
  match List.find? (fun p => p.1 == col) columnDisplays with
  | some p => p.2
  | none => formatKeywordDisplay col

/-- `TableRenderer.formatType`: an array `type` joins with pipes; otherwise
`type || 'any'`, suffixed with a truthy `format` in parentheses (the raw
`type` value is returned unchanged when there is no format). -/
def formatType (schema : Json) : Except Unit Json :=
  match jsGetProp schema "type" with
  | .error e => .error e
  | .ok tV =>
    match tV with
    | some (.arr xs) => .ok (.str (jsJoin " | " xs))
    | _ =>
      let t : Json := match tV with
        | some v => if truthy v then v else .str "any"
        | none => .str "any"
      match jsGetProp schema "format" with
      | .error e => .error e
      | .ok (some f) =>
        if truthy f then .ok (.str (jsToString t ++ " (" ++ jsToString f ++ ")"))
        else .ok t
      | .ok none => .ok t

/-- `TableRenderer.formatEnumForCSV`: values joined with newlines, paired
with their descriptions when `enumDescriptions` is an array of equal length;
a truthy non-array `enum` raises (`.map`/`.join` are not functions). -/
def formatEnumForCSV (schema : Json) : Except Unit String :=
  match jsGetProp schema "enum" with
  | .error e => .error e
  | .ok none => .ok ""
  | .ok (some e) =>
    if truthy e then
      match e with
      | .arr xs =>
        match jsGetProp schema "enumDescriptions" with
        | .error err => .error err
        | .ok (some (.arr ds)) =>
          if ds.length == xs.length then
            .ok (intercalateOwn "\n" ((xs.zip ds).map (fun p =>
              jsToString p.1 ++ ": " ++ jsToString p.2)))
          else .ok (intercalateOwn "\n" (xs.map jsElemStr))
        | .ok _ => .ok (intercalateOwn "\n" (xs.map jsElemStr))
      | _ => .error ()
    else .ok ""

/-- The keys `formatAdditionalInfoForCSV` never lists. -/
def additionalExcluded : List String :=
  ["name", "description", "type", "enum", "enumDescriptions", "const",
   "required", "$schema", "$id", "$ref", "properties", "items",
   "allOf", "anyOf", "oneOf"]

/-- `TableRenderer.formatAdditionalInfoForCSV` (it reads the column manager's
current selection, not the export's column argument). -/
def formatAdditionalInfoForCSV (managerCols : List String) (schema : Json) :
    Except Unit String :=
  match schema with
  | .null => .error ()
  | s =>
    .ok (intercalateOwn "\n" ((jsEntries s).filterMap (fun p =>
      if additionalExcluded.contains p.1 || managerCols.contains p.1 || p.2.isNull then
        none
      else
        some (formatKeywordDisplay p.1 ++ ": " ++
          (match p.2 with
           | .arr _ => jsonStringify p.2
           | .obj _ => jsonStringify p.2
           | v => jsToString v)))))

/-- The `switch` of `exportToCSV` computing one cell's raw value. -/
def cellValue (managerCols : List String) (prop : ExtractedProperty) (col : String) :
    Except Unit Json :=
  match col with
  | "name" => .ok (.str prop.name)
  | "description" =>
    match jsGetProp prop.schema "description" with
    | .error e => .error e
    | .ok (some v) => .ok (if truthy v then v else .str "")
    | .ok none => .ok (.str "")
  | "type" => formatType prop.schema
  | "enum" =>
    match jsGetProp prop.schema "const" with
    | .error e => .error e
    | .ok (some c) => .ok (.str (jsToString c))
    | .ok none =>
      match formatEnumForCSV prop.schema with
      | .error e => .error e
      | .ok s => .ok (.str s)
  | "required" => .ok (.str (if prop.required then "Yes" else "No"))
  | "additionalInfo" =>
    match formatAdditionalInfoForCSV managerCols prop.schema with
    | .error e => .error e
    | .ok s => .ok (.str s)
  | _ =>
    match jsGetProp prop.schema col with
    | .error e => .error e
    | .ok (some v) => .ok (.str (jsonStringify v))
    | .ok none => .ok (.str "")

/-- Double every double-quote (`.replace(/"/g, '""')`). -/
def doubleQuotes (cs : List Char) : List Char :=
  cs.flatMap (fun c => if c == '"' then ['"', '"'] else [c])

/-- A character forcing CSV quoting. -/
def badCsvChar (c : Char) : Bool :=
  c == '\n' || c == ',' || c == '"'

/-- The cell formatting of `exportToCSV`: coerce to string, double the
quotes, then wrap in quotes when a newline, comma or quote is present. -/
def escapeCell (cell : Json) : String :=
  let cs := doubleQuotes (jsToString cell).data
  if cs.any badCsvChar then String.mk ('"' :: (cs ++ ['"'])) else String.mk cs

/-- The data-row loop of `exportToCSV`, carrying the sticky current
category. -/
def exportRows (managerCols cols : List String) :
    Json → List ExtractedProperty → Except Unit (List (List Json))
  | _, [] => .ok []
  | cur, p :: rest =>
    let cur2 := if truthy p.category && !(sameValueZero p.category cur) then p.category else cur
    match exMapM (cellValue managerCols p) cols with
    | .error e => .error e
    | .ok cells =>
      match exportRows managerCols cols cur2 rest with
      | .error e => .error e
      | .ok rs => .ok (((if truthy cur2 then cur2 else .str "") :: cells) :: rs)

/-- The header row: `Category` first, then one display name per column. -/
def csvHeader (cols : List String) : List Json :=
  .str "Category" :: cols.map (fun c => .str (displayOf c))

/-- Escape every cell and join: cells by commas, rows by newlines. -/
def formatCsv (rows : List (List Json)) : String :=
  intercalateOwn "\n" (rows.map (fun r => intercalateOwn "," (r.map escapeCell)))

/-- `TableRenderer.exportToCSV` (`managerCols` is the column manager's
selection used by `formatAdditionalInfoForCSV`; `sel` the explicit column
argument, `null` defaulting to the manager's). -/
def exportToCSV (managerCols : List String) (sel : Option (List String))
    (data : Option TableData) : Except Unit String :=
  match data with
  | none => .ok ""
  | some d =>
    let cols := match sel with
      | some cs => cs
      | none => managerCols
    match exportRows managerCols cols (.str "") d.properties with
    | .error e => .error e
    | .ok rs => .ok (formatCsv (csvHeader cols :: rs))

/-- Spec wording of CSV escaping: a cell containing a newline, comma or
double-quote is wrapped in double quotes with internal quotes doubled. -/
def specEscape (s : String) : String :=
  if s.data.any badCsvChar then String.mk ('"' :: (doubleQuotes s.data ++ ['"']))
  else s

/-- The first (Category) column per data row: the most recently seen truthy
category, the empty string before any has occurred. -/
def specCategoryColumn : Json → List ExtractedProperty → List Json
  | _, [] => []
  | last, p :: rest =>
    let cur := if truthy p.category then p.category else last
    (if truthy cur then cur else .str "") :: specCategoryColumn cur rest

/-- Spec wording of the CSV export: a `Category`-led header, one data row per
property whose first cell is the sticky category, all cells escaped per
`specEscape`, cells comma-joined and rows newline-joined. -/
def specExportToCSV (managerCols : List String) (sel : Option (List String))
    (data : Option TableData) : Except Unit String :=
  match data with
  | none => .ok ""
  | some d =>
    let cols := match sel with
      | some cs => cs
      | none => managerCols
    match exMapM (fun p => exMapM (cellValue managerCols p) cols) d.properties with
    | .error e => .error e
    | .ok cellss =>
      .ok (intercalateOwn "\n"
        ((csvHeader cols ::
            List.zipWith (fun c cells => c :: cells)
              (specCategoryColumn (.str "") d.properties) cellss).map
          (fun r => intercalateOwn "," (r.map (fun cell => specEscape (jsToString cell))))))

/-! ### Shared helper lemmas -/

theorem isNull_false_iff {v : Json} : v.isNull = false ↔ v ≠ Json.null := by
  cases v <;> simp [Json.isNull]

theorem truthy_isNull {v : Json} (h : truthy v = true) : v.isNull = false := by
  cases v <;> simp_all [truthy, Json.isNull]

theorem jsGetProp_of_not_null {v : Json} (k : String) (h : v.isNull = false) :
    jsGetProp v k = .ok (getMember v k) := by
  cases v <;> simp_all [jsGetProp, Json.isNull]

theorem jsGetProp_ok {v : Json} {k : String} {o : Option Json}
    (h : jsGetProp v k = .ok o) : o = getMember v k := by
  cases v <;> simp_all [jsGetProp]

theorem sameValueZero_eq {a b : Json} (h : sameValueZero a b = true) : a = b := by
  cases a <;> cases b <;> simp_all [sameValueZero]

theorem strEndsWith_refl (s : String) : strEndsWith s s = true := by
  simp [strEndsWith, List.isSuffixOf_iff_suffix]

theorem walkPath_not_null {cur : Json} (path : List String) (h : cur.isNull = false) :
    walkPath cur path = .ok (specWalk cur path) := by
  induction path generalizing cur with
  | nil => simp [walkPath, specWalk]
  | cons seg rest ih =>
    rw [walkPath, specWalk, jsGetProp_of_not_null seg h]
    cases hm : getMember cur seg with
    | none => rfl
    | some v =>
      by_cases ht : truthy v = true
      · simp [ht, ih (truthy_isNull ht)]
      · simp [Bool.eq_false_iff.mpr ht]

theorem externalScan_ok {r : String} {store : Store} {o : Option Json}
    (h : externalScan r store = .ok o) :
    o = (List.find? (scanPred r) store).map (fun p => p.2) := by
  induction store with
  | nil => simp [externalScan] at h; simp [← h]
  | cons hd tl ih =>
    obtain ⟨id, schema⟩ := hd
    cases id with
    | str s =>
      rw [externalScan] at h
      rw [List.find?_cons]
      by_cases hp : (strEndsWith s r || strEndsWith r s) = true
      · rw [if_pos hp] at h
        simp only [scanPred, hp]
        simp at h
        simp [← h]
      · rw [if_neg hp] at h
        have hp2 : scanPred r (Json.str s, schema) = false := by
          simp only [scanPred]
          exact Bool.eq_false_iff.mpr hp
        rw [hp2]
        exact ih h
    | null => simp [externalScan] at h
    | bool b => simp [externalScan] at h
    | num n => simp [externalScan] at h
    | arr xs => simp [externalScan] at h
    | obj fs => simp [externalScan] at h

theorem externalScan_none_no_exact {r : String} {store : Store}
    (h : externalScan r store = .ok none) : storeGet store r = none := by
  induction store with
  | nil => simp [storeGet]
  | cons hd tl ih =>
    obtain ⟨id, schema⟩ := hd
    cases id with
    | str s =>
      rw [externalScan] at h
      by_cases hp : (strEndsWith s r || strEndsWith r s) = true
      · rw [if_pos hp] at h; simp at h
      · rw [if_neg hp] at h
        have hsr : (s == r) = false := by
          by_cases he : s = r
          · subst he; simp [strEndsWith_refl s] at hp
          · simp [he]
        have := ih h
        simp only [storeGet, List.find?_cons, sameValueZero, hsr] at *
        exact this
    | null => simp [externalScan] at h
    | bool b => simp [externalScan] at h
    | num n => simp [externalScan] at h
    | arr xs => simp [externalScan] at h
    | obj fs => simp [externalScan] at h

theorem externalScan_total {r : String} {store : Store} (h : allStrKeys store = true) :
    ∃ o, externalScan r store = .ok o := by
  induction store with
  | nil => exact ⟨none, rfl⟩
  | cons hd tl ih =>
    obtain ⟨id, schema⟩ := hd
    rw [allStrKeys, List.all_cons] at h
    obtain ⟨h1, h2⟩ := Bool.and_eq_true_iff.mp h
    cases id with
    | str s =>
      rw [externalScan]
      by_cases hp : (strEndsWith s r || strEndsWith r s) = true
      · exact ⟨some schema, by rw [if_pos hp]⟩
      · rw [if_neg hp]; exact ih h2
    | null => simp [Json.isStr] at h1
    | bool b => simp [Json.isStr] at h1
    | num n => simp [Json.isStr] at h1
    | arr xs => simp [Json.isStr] at h1
    | obj fs => simp [Json.isStr] at h1

/-! ### C4: internal reference resolution -/

/-- C4: for every reference string starting with `#` and every non-null base
document, `resolveRef` interprets the remainder after the leading two
characters as a slash-separated key path and walks the base document,
returning `null` as soon as a segment is missing or falsy (falsy schema
values such as `false` or `0` included), and otherwise the value reached. -/
theorem c4_internal_resolution (store : Store) (r : String) (base : Json)
    (hhash : startsWithHash r = true) (hbase : base.isNull = false) :
    resolveRefStr store r base = .ok (specResolveInternal r base) := by
  rw [resolveRefStr, if_pos hhash, specResolveInternal]
  exact walkPath_not_null _ hbase

/-- Witness for C4 at a concrete input: `#/a/b` over `{a: {b: 7}}` resolves
to `7`, and `#/c` over the same document resolves to `null`. -/
theorem c4_internal_resolution_witness :
    startsWithHash "#/a/b" = true ∧
    (Json.obj [("a", .obj [("b", .num 7)])]).isNull = false ∧
    resolveRefStr [] "#/a/b" (.obj [("a", .obj [("b", .num 7)])]) = .ok (some (.num 7)) := by
  refine ⟨rfl, rfl, ?_⟩
  have h := c4_internal_resolution [] "#/a/b" (.obj [("a", .obj [("b", .num 7)])]) rfl rfl
  rw [h]; rfl

/-! ### C5: external reference resolution -/

/-- C5: for every reference string not starting with `#` and every store
whose identifiers are strings, `resolveRef` scans the store in insertion
order and returns the document of the first identifier that is a suffix of
the reference or of which the reference is a suffix; otherwise it falls back
to an exact lookup of the reference as a literal store key, and returns
`null` if that also fails. -/
theorem c5_external_resolution (store : Store) (r : String) (base : Json)
    (hhash : startsWithHash r = false) (hkeys : allStrKeys store = true) :
    resolveRefStr store r base = .ok (specResolveExternal store r) := by
  rw [resolveRefStr, if_neg (by simp [hhash])]
  obtain ⟨o, ho⟩ := externalScan_total (r := r) hkeys
  have hval := externalScan_ok ho
  rw [ho]
  cases o with
  | some s =>
    rw [specResolveExternal]
    cases hf : List.find? (scanPred r) store with
    | none => rw [hf] at hval; simp at hval
    | some p => rw [hf] at hval; simp at hval; rw [hval]
  | none =>
    have hget := externalScan_none_no_exact ho
    rw [specResolveExternal]
    cases hf : List.find? (scanPred r) store with
    | none => rw [hget]
    | some p => rw [hf] at hval; simp at hval

/-! ### C10: totality of reference resolution -/

/-- C10 counterexample: with a `null` base document (a legitimate JSON
value), an internal reference raises a `TypeError` (`null['a']`) instead of
returning a result, so `resolveRef` is not total over all JSON bases. -/
theorem c10_counterexample :
    resolveRefStr [] "#/a" Json.null = .error () ∧
    ∀ o, resolveRefStr [] "#/a" Json.null ≠ .ok o := by
  refine ⟨rfl, fun o h => ?_⟩
  rw [show resolveRefStr [] "#/a" Json.null = Except.error () from rfl] at h
  exact Except.noConfusion h

/-- C10 (amended): `resolveRef` is total — returns a fragment/document or
`null` and never throws — for every reference string, every non-null base
document, and every store whose identifiers are strings; the falsy check
after each indexing step keeps mid-traversal receivers non-null. -/
theorem c10_resolution_total (store : Store) (r : String) (base : Json)
    (hbase : base.isNull = false) (hkeys : allStrKeys store = true) :
    ∃ o, resolveRefStr store r base = .ok o := by
  rw [resolveRefStr]
  by_cases hh : startsWithHash r = true
  · rw [if_pos hh]
    exact ⟨specWalk base (refSegments r), walkPath_not_null _ hbase⟩
  · rw [if_neg hh]
    obtain ⟨o, ho⟩ := externalScan_total (r := r) hkeys
    cases o with
    | some s => rw [ho]; exact ⟨some s, rfl⟩
    | none =>
      rw [ho]
      exact ⟨_, rfl⟩

/-- Witness for C10 at concrete inputs: an object base and a string-keyed
store admit a successful (`ok`) resolution for both reference shapes. -/
theorem c10_resolution_total_witness :
    (Json.obj [("a", .num 1)]).isNull = false ∧
    allStrKeys [(Json.str "k.json", Json.num 2)] = true ∧
    (∃ o, resolveRefStr [(Json.str "k.json", Json.num 2)] "#/a" (Json.obj [("a", .num 1)]) = .ok o) ∧
    (∃ o, resolveRefStr [(Json.str "k.json", Json.num 2)] "k.json" (Json.obj [("a", .num 1)]) = .ok o) :=
  ⟨rfl, rfl,
   c10_resolution_total _ "#/a" _ rfl rfl,
   c10_resolution_total _ "k.json" _ rfl rfl⟩

/-! ### C3: category propagation through allOf branches -/

/-- C3 counterexample: a branch `$ref` resolving to a document with a
*present but falsy* `title` (`""`) yields properties carrying the caller's
category `"Outer"`, not the title — the code computes
`resolved.title || category`, not `resolved.title ?? category` as claimed. -/
theorem c3_counterexample :
    extractProperties [] 3
      (.obj [("allOf", .arr [.obj [("$ref", .str "#/$defs/E")]]),
             ("$defs", .obj [("E", .obj [("title", .str ""),
                                         ("properties", .obj [("x", .obj [])])])])])
      (.str "Outer")
    = .ok [⟨.str "Outer", "x", .obj [], false⟩] ∧
    resolveRef []
      (.str "#/$defs/E")
      (.obj [("allOf", .arr [.obj [("$ref", .str "#/$defs/E")]]),
             ("$defs", .obj [("E", .obj [("title", .str ""),
                                         ("properties", .obj [("x", .obj [])])])])])
    = .ok (some (.obj [("title", .str ""), ("properties", .obj [("x", .obj [])])])) ∧
    getMember (.obj [("title", .str ""), ("properties", .obj [("x", .obj [])])]) "title"
    = some (.str "") ∧
    Json.str "Outer" ≠ Json.str "" :=
  ⟨rfl, rfl, rfl, by simp⟩

/-- C3 (amended): a `$ref` branch resolving to a truthy document recurses
with category `resolved.title || category` — a truthy title becomes the new
category passed into the branch's recursion (deeper titled branches may
override it), while a missing *or falsy* title inherits the caller's
category; an inline (non-`$ref`) branch recurses with the caller's category
unchanged. -/
theorem c3_category_propagation :
    (∀ (store : Store) (f : Nat) (schema cat sub rv res : Json),
       sub.isNull = false →
       getMember sub "$ref" = some rv → truthy rv = true →
       resolveRef store rv schema = .ok (some res) → truthy res = true →
       extractAllOfBranch store (fun s c => extractProperties store f s c) schema cat sub =
         extractProperties store f res
           (match getMember res "title" with
            | some t => if truthy t then t else cat
            | none => cat)) ∧
    (∀ (store : Store) (f : Nat) (schema cat sub : Json),
       sub.isNull = false →
       getMember sub "$ref" = none →
       extractAllOfBranch store (fun s c => extractProperties store f s c) schema cat sub =
         extractProperties store f sub cat) := by
  constructor
  · intro store f schema cat sub rv res hsub href htr hres htres
    rw [extractAllOfBranch, jsGetProp_of_not_null _ hsub, href]
    simp only [htr, if_pos, hres]
    rw [jsGetProp_of_not_null _ (truthy_isNull htres)]
    simp only [htres, if_pos]
    cases getMember res "title" with
    | none => rfl
    | some t => by_cases ht : truthy t = true <;> simp [ht]
  · intro store f schema cat sub hsub href
    rw [extractAllOfBranch, jsGetProp_of_not_null _ hsub, href]

/-- Witness for C3 at concrete inputs: a truthy title `"Cat"` becomes the
branch category; an inline branch keeps `"Outer"`. -/
theorem c3_category_propagation_witness :
    ((Json.obj [("$ref", .str "#/$defs/E")]).isNull = false ∧
     getMember (Json.obj [("$ref", .str "#/$defs/E")]) "$ref" = some (.str "#/$defs/E") ∧
     truthy (.str "#/$defs/E") = true ∧
     resolveRef [] (.str "#/$defs/E")
       (.obj [("$defs", .obj [("E", .obj [("title", .str "Cat")])])])
       = .ok (some (.obj [("title", .str "Cat")])) ∧
     truthy (.obj [("title", .str "Cat")]) = true ∧
     extractAllOfBranch [] (fun s c => extractProperties [] 2 s c)
       (.obj [("$defs", .obj [("E", .obj [("title", .str "Cat")])])])
       (.str "Outer") (.obj [("$ref", .str "#/$defs/E")]) =
       extractProperties [] 2 (.obj [("title", .str "Cat")]) (.str "Cat")) ∧
    ((Json.obj [("properties", .obj [("q", .obj [])])]).isNull = false ∧
     getMember (Json.obj [("properties", .obj [("q", .obj [])])]) "$ref" = none ∧
     extractAllOfBranch [] (fun s c => extractProperties [] 2 s c)
       (.obj []) (.str "Outer") (.obj [("properties", .obj [("q", .obj [])])]) =
       extractProperties [] 2 (.obj [("properties", .obj [("q", .obj [])])]) (.str "Outer")) := by
  constructor
  · refine ⟨rfl, rfl, rfl, rfl, rfl, ?_⟩
    exact c3_category_propagation.1 [] 2 _ _ _ _ _ rfl rfl rfl rfl rfl
  · refine ⟨rfl, rfl, ?_⟩
    exact c3_category_propagation.2 [] 2 _ _ _ rfl rfl

/-! ### C7: reference-resolution failure is non-fatal -/

/-- C7: an `allOf` branch whose `$ref` fails to resolve (resolution returns
`null`) contributes zero extracted properties and the remaining branches are
processed exactly as if the branch were absent; and when the main schema's
`items` is itself a `$ref` that fails to resolve, `getTableData` returns
`null`. -/
theorem c7_resolution_failure_nonfatal :
    (∀ (store : Store) (recur : Json → Json → Except Unit (List ExtractedProperty))
       (schema cat sub rv : Json) (pre rest : List Json),
       sub.isNull = false →
       getMember sub "$ref" = some rv → truthy rv = true →
       resolveRef store rv schema = .ok none →
       extractAllOfBranches store recur schema cat (pre ++ sub :: rest) =
         extractAllOfBranches store recur schema cat (pre ++ rest)) ∧
    (∀ (store : Store) (fuel : Nat) (m itemsV rv : Json),
       truthy m = true →
       getMember m "items" = some itemsV → itemsV.isNull = false →
       getMember itemsV "$ref" = some rv → truthy rv = true →
       resolveRef store rv m = .ok none →
       getTableData store (some m) fuel = .ok none) := by
  constructor
  · intro store recur schema cat sub rv pre rest hsub href htr hres
    have hbranch : extractAllOfBranch store recur schema cat sub = .ok [] := by
      rw [extractAllOfBranch, jsGetProp_of_not_null _ hsub, href]
      simp only [htr, if_pos, hres]
    induction pre with
    | nil =>
      rw [List.nil_append, List.nil_append, extractAllOfBranches, hbranch]
      cases extractAllOfBranches store recur schema cat rest <;> rfl
    | cons p pre ih =>
      rw [List.cons_append, List.cons_append, extractAllOfBranches, extractAllOfBranches, ih]
  · intro store fuel m itemsV rv hm hitems hitnull href htr hres
    rw [getTableData]
    simp only [hm, if_pos]
    rw [jsGetProp_of_not_null _ (truthy_isNull hm), hitems]
    simp only [hitnull, Bool.false_eq_true, if_neg, href, htr, if_pos, hres]
    simp

/-- Witness for C7 at concrete inputs: a dangling external `$ref` branch is
dropped while the following inline branch is processed; a dangling `items`
`$ref` nullifies the table data. -/
theorem c7_resolution_failure_nonfatal_witness :
    ((Json.obj [("$ref", .str "missing.json")]).isNull = false ∧
     getMember (Json.obj [("$ref", .str "missing.json")]) "$ref" = some (.str "missing.json") ∧
     truthy (.str "missing.json") = true ∧
     resolveRef [] (.str "missing.json") (.obj []) = .ok none ∧
     extractAllOfBranches [] (fun s c => extractProperties [] 1 s c) (.obj []) .null
       ([] ++ (Json.obj [("$ref", .str "missing.json")]) ::
         [Json.obj [("properties", .obj [("q", .obj [])])]]) =
       extractAllOfBranches [] (fun s c => extractProperties [] 1 s c) (.obj []) .null
         ([] ++ [Json.obj [("properties", .obj [("q", .obj [])])]])) ∧
    (truthy (Json.obj [("items", .obj [("$ref", .str "other.json")])]) = true ∧
     getMember (Json.obj [("items", .obj [("$ref", .str "other.json")])]) "items" =
       some (.obj [("$ref", .str "other.json")]) ∧
     (Json.obj [("$ref", .str "other.json")]).isNull = false ∧
     getMember (Json.obj [("$ref", .str "other.json")]) "$ref" = some (.str "other.json") ∧
     truthy (.str "other.json") = true ∧
     resolveRef [] (.str "other.json") (Json.obj [("items", .obj [("$ref", .str "other.json")])]) = .ok none ∧
     getTableData [] (some (Json.obj [("items", .obj [("$ref", .str "other.json")])])) 1 = .ok none) := by
  constructor
  · refine ⟨rfl, rfl, rfl, rfl, ?_⟩
    exact c7_resolution_failure_nonfatal.1 [] _ _ _ _ _ [] _ rfl rfl rfl rfl
  · refine ⟨rfl, rfl, rfl, rfl, rfl, rfl, ?_⟩
    exact c7_resolution_failure_nonfatal.2 [] 1 _ _ _ rfl rfl rfl rfl rfl rfl

/-! ### Load-loop lemmas -/

theorem isNull_true_iff {v : Json} : v.isNull = true ↔ v = Json.null := by
  cases v <;> simp [Json.isNull]

theorem loadStep_ms {s : Store} {m : Option Json} {n : String} {d : Json}
    {s' : Store} {m' : Option Json}
    (h : loadStep (s, m) (n, d) = .ok (s', m')) :
    m' = if mainPred d then some d else m := by
  cases d <;> simp_all [loadStep, jsGetProp]

theorem loadGo_ms :
    ∀ (files : List (String × Json)) (s : Store) (m : Option Json)
      (s' : Store) (m' : Option Json),
      loadSchemas.go (s, m) files = .ok (s', m') →
      m' = (match lastMatching files with
            | some x => some x
            | none => m) := by
  intro files
  induction files with
  | nil =>
    intro s m s' m' h
    simp [loadSchemas.go] at h
    simp [lastMatching, ← h.2]
  | cons f fs ih =>
    intro s m s' m' h
    rw [loadSchemas.go] at h
    cases hstep : loadStep (s, m) f with
    | error e => rw [hstep] at h; exact absurd h (by simp)
    | ok acc2 =>
      rw [hstep] at h
      obtain ⟨s2, m2⟩ := acc2
      obtain ⟨n, d⟩ := f
      have hm2 := loadStep_ms hstep
      have := ih s2 m2 s' m' h
      rw [this, hm2, lastMatching]
      cases lastMatching fs with
      | some x => rfl
      | none => by_cases hp : mainPred d = true <;> simp [hp]

theorem processFiles_eq_of_load {files : List (String × Json)} {fuel : Nat}
    {s0 : Store} {m0 : Option Json} (h : loadSchemas files = .ok (s0, m0)) :
    processFiles files fuel = processLoaded s0 (fallbackMs m0 s0) fuel := by
  rw [processFiles]
  simp only [h]

/-- The result components of a successful `processFiles` run: the store and
the fallback-adjusted main schema come from the load loop, and the boolean is
`mainSchema !== null`. -/
theorem processFiles_components
    {files : List (String × Json)} {fuel : Nat} {store : Store}
    {ms : Option Json} {usage : List (String × Nat)} {b : Bool}
    (h : processFiles files fuel = .ok (store, ms, usage, b)) :
    ∃ store0 ms0, loadSchemas files = .ok (store0, ms0) ∧ store = store0 ∧
      ms = fallbackMs ms0 store0 ∧ b = ms.isSome := by
  cases hload : loadSchemas files with
  | error e =>
    rw [processFiles, hload] at h
    exact absurd h (by simp)
  | ok acc =>
    obtain ⟨s0, m0⟩ := acc
    rw [processFiles_eq_of_load hload] at h
    refine ⟨s0, m0, rfl, ?_⟩
    cases hmsv : fallbackMs m0 s0 with
    | some m =>
      rw [hmsv, processLoaded] at h
      by_cases ht : truthy m = true
      · simp only [ht, if_true] at h
        cases hgt : getTableData s0 (some m) fuel with
        | error e => rw [hgt] at h; exact absurd h (by simp)
        | ok td =>
          rw [hgt] at h
          cases td with
          | none =>
            replace h : (match collectKeywordUsage ([] : List ExtractedProperty) with
                | Except.error e => Except.error e
                | Except.ok u => Except.ok (s0, some m, u, true)) =
                Except.ok (store, ms, usage, b) := h
            cases hcu : collectKeywordUsage ([] : List ExtractedProperty) with
            | error e => rw [hcu] at h; exact absurd h (by simp)
            | ok u =>
              rw [hcu] at h
              simp only [Except.ok.injEq, Prod.mk.injEq] at h
              obtain ⟨h1, h2, h3, h4⟩ := h
              exact ⟨h1.symm, h2.symm, by rw [← h4, ← h2]; rfl⟩
          | some t =>
            replace h : (match collectKeywordUsage t.properties with
                | Except.error e => Except.error e
                | Except.ok u => Except.ok (s0, some m, u, true)) =
                Except.ok (store, ms, usage, b) := h
            cases hcu : collectKeywordUsage t.properties with
            | error e => rw [hcu] at h; exact absurd h (by simp)
            | ok u =>
              rw [hcu] at h
              simp only [Except.ok.injEq, Prod.mk.injEq] at h
              obtain ⟨h1, h2, h3, h4⟩ := h
              exact ⟨h1.symm, h2.symm, by rw [← h4, ← h2]; rfl⟩
      · simp only [Bool.not_eq_true] at ht
        simp only [ht, Bool.false_eq_true, if_false] at h
        simp only [Except.ok.injEq, Prod.mk.injEq] at h
        obtain ⟨h1, h2, h3, h4⟩ := h
        exact ⟨h1.symm, h2.symm, by rw [← h4, ← h2]; rfl⟩
    | none =>
      rw [hmsv, processLoaded] at h
      simp only [Except.ok.injEq, Prod.mk.injEq] at h
      obtain ⟨h1, h2, h3, h4⟩ := h
      exact ⟨h1.symm, h2.symm, by rw [← h4, ← h2]; rfl⟩

/-- Loading a single document stores exactly that document under one key. -/
theorem loadSchemas_singleton {n : String} {d : Json} {s0 : Store} {m0 : Option Json}
    (h : loadSchemas [(n, d)] = .ok (s0, m0)) :
    s0 = [((match getMember d "$id" with
            | some i => if truthy i then i else .str n
            | none => .str n), d)] ∧
    m0 = (if mainPred d then some d else none) := by
  by_cases hd : d.isNull = true
  · rw [isNull_true_iff.mp hd] at h
    exact absurd h (by simp [loadSchemas, loadSchemas.go, loadStep, jsGetProp])
  · rw [Bool.not_eq_true] at hd
    have hval : loadSchemas [(n, d)] =
        .ok ([((match getMember d "$id" with
                | some i => if truthy i then i else .str n
                | none => .str n), d)],
             if mainPred d then some d else none) := by
      show loadSchemas.go ([], none) [(n, d)] = _
      rw [loadSchemas.go, loadStep, jsGetProp_of_not_null _ hd]
      rfl
    rw [hval] at h
    simp only [Except.ok.injEq, Prod.mk.injEq] at h
    exact ⟨h.1.symm, h.2.symm⟩

/-! ### C1: main-schema selection over multiple documents -/

/-- C1 counterexample: two loaded documents sharing an `$id` collapse to a
single store entry; neither satisfies the main-schema predicate (neither even
has a `type` key), yet `processFiles` promotes the single stored document via
the size-one fallback and returns `true`, where the claim requires `false`. -/
theorem c1_counterexample :
    processFiles [("a", .obj [("$id", .str "x")]),
                  ("b", .obj [("$id", .str "x"), ("t", .num 1)])] 5 =
      .ok ([(.str "x", .obj [("$id", .str "x"), ("t", .num 1)])],
           some (.obj [("$id", .str "x"), ("t", .num 1)]), [], true) ∧
    getMember (.obj [("$id", .str "x")]) "type" = none ∧
    getMember (.obj [("$id", .str "x"), ("t", .num 1)]) "type" = none :=
  ⟨rfl, rfl, rfl⟩

/-- C1 (amended): over any input sequence of two or more documents that loads
successfully, the load loop selects as main schema the *last* document with
`type === "array"` and a *truthy* `items`; when no document qualifies *and
the store holds more than one entry* (no `$id` collision collapsed it to
one), `processFiles` returns `false` and `getTableData` returns `null`. -/
theorem c1_main_schema_selection :
    ∀ (files : List (String × Json)) (store : Store) (ms0 : Option Json),
      2 ≤ files.length →
      loadSchemas files = .ok (store, ms0) →
      ms0 = lastMatching files ∧
      (lastMatching files = none → store.length ≠ 1 →
        ∀ fuel, processFiles files fuel = .ok (store, none, [], false) ∧
          getTableData store none fuel = .ok none) := by
  intro files store ms0 hlen hload
  have hms0 : ms0 = lastMatching files := by
    have := loadGo_ms files [] none store ms0 hload
    rw [this]
    cases lastMatching files <;> rfl
  refine ⟨hms0, ?_⟩
  intro hnone hsize fuel
  rw [hnone] at hms0
  subst hms0
  refine ⟨?_, rfl⟩
  rw [processFiles_eq_of_load hload]
  match store, hsize with
  | [], _ => rfl
  | [(k, v)], hsize => exact absurd rfl hsize
  | (k1, v1) :: (k2, v2) :: rest, _ => rfl

/-- Witness for C1 at concrete inputs: two distinct non-qualifying documents
load into a two-entry store, and `processFiles` reports `false` with null
table data. -/
theorem c1_main_schema_selection_witness :
    2 ≤ ([("a", Json.obj [("x", .num 1)]), ("b", Json.obj [("y", .num 2)])] :
          List (String × Json)).length ∧
    loadSchemas [("a", Json.obj [("x", .num 1)]), ("b", Json.obj [("y", .num 2)])] =
      .ok ([(.str "a", .obj [("x", .num 1)]), (.str "b", .obj [("y", .num 2)])], none) ∧
    lastMatching [("a", Json.obj [("x", .num 1)]), ("b", Json.obj [("y", .num 2)])] = none ∧
    processFiles [("a", Json.obj [("x", .num 1)]), ("b", Json.obj [("y", .num 2)])] 3 =
      .ok ([(.str "a", .obj [("x", .num 1)]), (.str "b", .obj [("y", .num 2)])], none, [], false) := by
  refine ⟨by decide, rfl, rfl, ?_⟩
  exact ((c1_main_schema_selection
    [("a", Json.obj [("x", .num 1)]), ("b", Json.obj [("y", .num 2)])]
    [(.str "a", .obj [("x", .num 1)]), (.str "b", .obj [("y", .num 2)])]
    none (by decide) rfl).2 rfl (by decide) 3).1

/-! ### C6: single-document fallback -/

/-- C6 counterexample: a single loaded document (no `type`, so the predicate
fails) becomes the main schema, but `processFiles` then *throws* during
keyword aggregation (`for (const x of 5)` in its `items.allOf`) instead of
returning `true` — "regardless of its shape" does not hold. -/
theorem c6_counterexample :
    loadSchemas [("a.json", .obj [("items", .obj [("allOf", .num 5)])])] =
      .ok ([(.str "a.json", .obj [("items", .obj [("allOf", .num 5)])])], none) ∧
    mainPred (.obj [("items", .obj [("allOf", .num 5)])]) = false ∧
    processFiles [("a.json", .obj [("items", .obj [("allOf", .num 5)])])] 5 = .error () :=
  ⟨rfl, rfl, rfl⟩

/-- C6 (amended): for a single loaded document not satisfying the main-schema
predicate, that document becomes the MainSchema and, *whenever `processFiles`
returns at all* (its keyword aggregation over the fallback document can
throw), it returns `true`. -/
theorem c6_single_document_fallback :
    ∀ (name : String) (d : Json) (fuel : Nat) (store : Store) (ms : Option Json)
      (usage : List (String × Nat)) (b : Bool),
      mainPred d = false →
      processFiles [(name, d)] fuel = .ok (store, ms, usage, b) →
      ms = some d ∧ b = true := by
  intro name d fuel store ms usage b hpred h
  obtain ⟨s0, m0, hload, hstore, hms, hb⟩ := processFiles_components h
  obtain ⟨hs0, hm0⟩ := loadSchemas_singleton hload
  rw [hpred] at hm0
  simp only [Bool.false_eq_true, if_false] at hm0
  rw [hs0, hm0] at hms
  simp only [fallbackMs] at hms
  refine ⟨hms, ?_⟩
  rw [hb, hms]
  rfl

/-- Witness for C6 at a concrete input: a single document without `type`
becomes the main schema and `processFiles` returns `true`. -/
theorem c6_single_document_fallback_witness :
    mainPred (.obj [("x", .num 1)]) = false ∧
    processFiles [("f.json", .obj [("x", .num 1)])] 3 =
      .ok ([(.str "f.json", .obj [("x", .num 1)])], some (.obj [("x", .num 1)]), [], true) ∧
    (some (Json.obj [("x", .num 1)]) = some (Json.obj [("x", .num 1)]) ∧ true = true) := by
  refine ⟨rfl, rfl, ?_⟩
  exact c6_single_document_fallback "f.json" (.obj [("x", .num 1)]) 3
    [(.str "f.json", .obj [("x", .num 1)])] (some (.obj [("x", .num 1)])) [] true rfl rfl

/-! ### C8: keyword aggregation lemmas -/

theorem bumpKeyword_eq (u : List (String × Nat)) (kw : String) :
    bumpKeyword u kw =
      (if List.any u (fun p => p.1 == kw) then
        List.map (fun p => if p.1 == kw then (p.1, usageCount u kw + 1) else p) u
      else u ++ [(kw, usageCount u kw + 1)]) := rfl

theorem find?_none_of_any_false {u : List (String × Nat)} {kw : String}
    (hany : ¬ List.any u (fun p => p.1 == kw) = true) :
    List.find? (fun p => p.1 == kw) u = none := by
  cases hf : List.find? (fun p => p.1 == kw) u with
  | none => rfl
  | some p =>
    have hsome : (List.find? (fun p => p.1 == kw) u).isSome = true := by rw [hf]; rfl
    obtain ⟨x, hx, hxk⟩ := List.find?_isSome.mp hsome
    exact absurd (List.any_eq_true.mpr ⟨x, hx, hxk⟩) hany

theorem usageCount_bump (u : List (String × Nat)) (kw j : String) :
    usageCount (bumpKeyword u kw) j =
      if j = kw then usageCount u j + 1 else usageCount u j := by
  rw [bumpKeyword_eq]
  by_cases hany : List.any u (fun p => p.1 == kw) = true
  · rw [if_pos hany]
    rw [usageCount, List.find?_map]
    have hpred : ((fun (p : String × Nat) => p.1 == j) ∘
        (fun (p : String × Nat) => if p.1 == kw then (p.1, usageCount u kw + 1) else p)) =
        (fun (p : String × Nat) => p.1 == j) := by
      funext p
      simp only [Function.comp_apply]
      by_cases hk : (p.1 == kw) = true
      · rw [if_pos hk]
      · rw [if_neg hk]
    rw [hpred]
    cases hf : List.find? (fun p => p.1 == j) u with
    | none =>
      by_cases hj : j = kw
      · obtain ⟨x, hx, hxk⟩ := List.any_eq_true.mp hany
        have hsome : (List.find? (fun p => p.1 == j) u).isSome = true :=
          List.find?_isSome.mpr ⟨x, hx, by rw [hj]; exact hxk⟩
        rw [hf] at hsome
        exact absurd hsome (by simp)
      · rw [if_neg hj]
        unfold usageCount
        rw [hf]
        rfl
    | some p =>
      have hpj : p.1 = j := by simpa using List.find?_some hf
      simp only [Option.map_some']
      by_cases hj : j = kw
      · have hbeq : (p.1 == kw) = true := by rw [hpj, hj]; exact beq_self_eq_true _
        rw [if_pos hbeq, if_pos hj]
        show usageCount u kw + 1 = usageCount u j + 1
        rw [hj]
      · have hbeq : (p.1 == kw) = false := by
          rw [hpj]
          exact beq_eq_false_iff_ne.mpr hj
        rw [if_neg (by rw [hbeq]; exact Bool.false_ne_true), if_neg hj]
        show p.2 = usageCount u j
        rw [usageCount, hf]
  · rw [if_neg hany]
    have hfkw := find?_none_of_any_false hany
    have hucount : ∀ j2, usageCount (u ++ [(kw, usageCount u kw + 1)]) j2 =
        (match (List.find? (fun p => p.1 == j2) u).or
          (List.find? (fun p => p.1 == j2) [(kw, usageCount u kw + 1)]) with
         | some p => p.2
         | none => 0) := by
      intro j2
      unfold usageCount
      rw [List.find?_append]
    by_cases hj : j = kw
    · rw [if_pos hj, hucount, hj, hfkw]
      have hone : List.find? (fun p => p.1 == kw) [(kw, usageCount u kw + 1)] =
          some (kw, usageCount u kw + 1) := by
        simp [List.find?_cons]
      rw [Option.none_or, hone]
    · rw [if_neg hj, hucount]
      have hone : List.find? (fun p => p.1 == j) [(kw, usageCount u kw + 1)] = none := by
        have hne : ((kw : String) == j) = false :=
          beq_eq_false_iff_ne.mpr (fun he => hj he.symm)
        simp [List.find?_cons, hne]
      rw [hone]
      unfold usageCount
      cases List.find? (fun p => p.1 == j) u <;> rfl

theorem usageCount_foldKeys (ks : List String) (k : String)
    (hk : excludedKeywords.contains k = false) :
    ∀ u : List (String × Nat),
      usageCount (ks.foldl
        (fun u kw => if excludedKeywords.contains kw then u else bumpKeyword u kw) u) k =
        usageCount u k + List.count k ks := by
  induction ks with
  | nil => intro u; rw [List.foldl_nil, List.count_nil]; omega
  | cons kw ks ih =>
    intro u
    rw [List.foldl_cons, List.count_cons]
    by_cases hkw : excludedKeywords.contains kw = true
    · rw [if_pos hkw, ih]
      have hne : (kw == k) = false := beq_eq_false_iff_ne.mpr (by
        intro he
        rw [he] at hkw
        rw [hkw] at hk
        exact Bool.noConfusion hk)
      rw [hne]
      rfl
    · rw [if_neg hkw, ih, usageCount_bump]
      by_cases he : k = kw
      · rw [if_pos he, he, beq_self_eq_true]
        simp only [if_pos]
        omega
      · rw [if_neg he]
        have : (kw == k) = false := beq_eq_false_iff_ne.mpr (fun h2 => he (h2 ▸ rfl))
        rw [this]
        rfl

theorem insertIdxSorted_perm {α : Type} (x : Nat × String × α) (l : List (Nat × String × α)) :
    (insertIdxSorted x l).Perm (x :: l) := by
  induction l with
  | nil => exact List.Perm.refl _
  | cons y ys ih =>
    rw [insertIdxSorted]
    by_cases h : x.1 < y.1
    · rw [if_pos h]
    · rw [if_neg h]
      exact (ih.cons y).trans (List.Perm.swap x y ys)

theorem isortIdx_perm {α : Type} (l : List (Nat × String × α)) :
    (isortIdx l).Perm l := by
  induction l with
  | nil => exact List.Perm.refl _
  | cons x xs ih =>
    rw [isortIdx]
    exact (insertIdxSorted_perm x (isortIdx xs)).trans (ih.cons x)

theorem filterMap_idx_map {α : Type} (fs : List (String × α)) :
    (fs.filterMap (fun p =>
      match parseArrayIndex p.1 with
      | some n => some (n, p.1, p.2)
      | none => none)).map (fun q => (q.2.1, q.2.2)) =
    fs.filter (fun p => (parseArrayIndex p.1).isSome) := by
  induction fs with
  | nil => rfl
  | cons hd tl ih =>
    rw [List.filterMap_cons, List.filter_cons]
    cases hp : parseArrayIndex hd.1 with
    | none =>
      simp only [hp, Option.isSome_none, Bool.false_eq_true, if_false]
      exact ih
    | some n =>
      simp only [hp, Option.isSome_some, if_true, List.map_cons]
      rw [ih, Prod.mk.eta]

theorem orderKeys_perm {α : Type} (fs : List (String × α)) :
    (orderKeys fs).Perm fs := by
  rw [orderKeys]
  have h1 : ((isortIdx (fs.filterMap (fun p =>
      match parseArrayIndex p.1 with
      | some n => some (n, p.1, p.2)
      | none => none))).map (fun q => (q.2.1, q.2.2))).Perm
      (fs.filter (fun p => (parseArrayIndex p.1).isSome)) := by
    rw [← filterMap_idx_map fs]
    exact List.Perm.map _ (isortIdx_perm _)
  have h2 : (fs.filter (fun p => (parseArrayIndex p.1).isNone)) =
      (fs.filter (fun p => !(parseArrayIndex p.1).isSome)) := by
    congr 1
    funext p
    cases parseArrayIndex p.1 <;> rfl
  refine (List.Perm.append_right _ h1).trans ?_
  rw [h2]
  exact List.filter_append_perm _ fs

theorem nodupKeys_iff {fs : List (String × Json)} :
    nodupKeys fs = true ↔ (fs.map (fun q => q.1)).Nodup := by
  induction fs with
  | nil => simp [nodupKeys]
  | cons hd tl ih =>
    rw [nodupKeys, List.map_cons, List.nodup_cons, Bool.and_eq_true, ih]
    have hcont : ((tl.map (fun q => q.1)).contains hd.1 = false) ↔
        hd.1 ∉ tl.map (fun q => q.1) := by
      constructor
      · intro hc hmem
        have : (tl.map (fun q => q.1)).contains hd.1 = true :=
          List.contains_iff_exists_mem_beq.mpr ⟨hd.1, hmem, beq_self_eq_true _⟩
        rw [this] at hc
        exact Bool.noConfusion hc
      · intro hmem
        cases hc : (tl.map (fun q => q.1)).contains hd.1 with
        | false => rfl
        | true =>
          obtain ⟨a, ha, hab⟩ := List.contains_iff_exists_mem_beq.mp hc
          exact absurd (by rw [eq_of_beq hab]; exact ha) hmem
    constructor
    · rintro ⟨h1, h2⟩
      refine ⟨hcont.mp ?_, h2⟩
      cases hc : (tl.map (fun q => q.1)).contains hd.1 with
      | false => rfl
      | true => rw [hc] at h1; exact Bool.noConfusion h1
    · rintro ⟨h1, h2⟩
      refine ⟨?_, h2⟩
      rw [hcont.mpr h1]
      rfl

theorem jsKeys_count_obj {fs : List (String × Json)} (h : nodupKeys fs = true) (k : String) :
    List.count k (jsKeys (.obj fs)) = (if hasOwnKey (.obj fs) k then 1 else 0) := by
  have hperm : (jsKeys (.obj fs)).Perm (fs.map (fun q => q.1)) := by
    rw [jsKeys, jsEntries]
    exact List.Perm.map _ (orderKeys_perm fs)
  rw [hperm.count_eq, hasOwnKey]
  by_cases hmem : k ∈ fs.map (fun q => q.1)
  · rw [if_pos (List.contains_iff_exists_mem_beq.mpr ⟨k, hmem, beq_self_eq_true _⟩)]
    exact List.count_eq_one_of_mem (nodupKeys_iff.mp h) hmem
  · have hc : (fs.map (fun q => q.1)).contains k = false := by
      cases hc : (fs.map (fun q => q.1)).contains k with
      | false => rfl
      | true =>
        obtain ⟨a, ha, hab⟩ := List.contains_iff_exists_mem_beq.mp hc
        exact absurd (by rw [eq_of_beq hab]; exact ha) hmem
    rw [hc]
    simp only [Bool.false_eq_true, if_false]
    exact List.count_eq_zero_of_not_mem hmem

theorem collectAux_count (props : List ExtractedProperty) :
    ∀ (u usage : List (String × Nat)) (k : String),
      props.all (fun p => wfFragment p.schema) = true →
      collectKeywordUsageAux u props = .ok usage →
      excludedKeywords.contains k = false →
      usageCount usage k =
        usageCount u k + (props.filter (fun p => hasOwnKey p.schema k)).length := by
  induction props with
  | nil =>
    intro u usage k hwf h hk
    simp only [collectKeywordUsageAux, Except.ok.injEq] at h
    rw [← h, List.filter_nil, List.length_nil]
    omega
  | cons p ps ih =>
    intro u usage k hwf h hk
    rw [List.all_cons, Bool.and_eq_true] at hwf
    obtain ⟨hwp, hwps⟩ := hwf
    cases hs : p.schema with
    | obj fs =>
      rw [collectKeywordUsageAux, hs] at h
      have hrec := ih (collectOneSchema u (.obj fs)) usage k hwps h hk
      rw [hrec, collectOneSchema, usageCount_foldKeys _ _ hk]
      rw [hs] at hwp
      rw [jsKeys_count_obj (by simpa [wfFragment] using hwp) k]
      rw [List.filter_cons, hs]
      by_cases hh : hasOwnKey (.obj fs) k = true
      · rw [if_pos hh, if_pos hh, List.length_cons]
        omega
      · rw [if_neg hh, if_neg hh]
        omega
    | null => rw [hs] at hwp; exact absurd hwp (by simp [wfFragment])
    | bool b => rw [hs] at hwp; exact absurd hwp (by simp [wfFragment])
    | num n => rw [hs] at hwp; exact absurd hwp (by simp [wfFragment])
    | str s => rw [hs] at hwp; exact absurd hwp (by simp [wfFragment])
    | arr xs => rw [hs] at hwp; exact absurd hwp (by simp [wfFragment])

theorem bump_no_excluded {u : List (String × Nat)} {kw : String}
    (hu : u.all (fun p => !(excludedKeywords.contains p.1)) = true)
    (hkw : excludedKeywords.contains kw = false) :
    (bumpKeyword u kw).all (fun p => !(excludedKeywords.contains p.1)) = true := by
  rw [bumpKeyword_eq]
  by_cases hany : List.any u (fun p => p.1 == kw) = true
  · rw [if_pos hany, List.all_eq_true]
    intro x hx
    obtain ⟨y, hy, hyx⟩ := List.mem_map.mp hx
    have hyk := (List.all_eq_true.mp hu) y hy
    by_cases hk : (y.1 == kw) = true
    · rw [if_pos hk] at hyx
      rw [← hyx]
      exact hyk
    · rw [if_neg hk] at hyx
      rw [← hyx]
      exact hyk
  · rw [if_neg hany, List.all_append, hu, Bool.true_and, List.all_cons, List.all_nil,
      Bool.and_true]
    rw [show ((kw, usageCount u kw + 1).1) = kw from rfl, hkw]
    rfl

theorem foldKeys_no_excluded (ks : List String) :
    ∀ (u : List (String × Nat)),
      u.all (fun p => !(excludedKeywords.contains p.1)) = true →
      (ks.foldl (fun u kw =>
        if excludedKeywords.contains kw then u else bumpKeyword u kw) u).all
        (fun p => !(excludedKeywords.contains p.1)) = true := by
  induction ks with
  | nil => intro u hu; exact hu
  | cons kw ks ih =>
    intro u hu
    rw [List.foldl_cons]
    by_cases hkw : excludedKeywords.contains kw = true
    · rw [if_pos hkw]; exact ih u hu
    · rw [if_neg hkw]
      exact ih _ (bump_no_excluded hu (Bool.eq_false_iff.mpr hkw))

theorem collectAux_no_excluded (props : List ExtractedProperty) :
    ∀ (u usage : List (String × Nat)),
      collectKeywordUsageAux u props = .ok usage →
      u.all (fun p => !(excludedKeywords.contains p.1)) = true →
      usage.all (fun p => !(excludedKeywords.contains p.1)) = true := by
  induction props with
  | nil =>
    intro u usage h hu
    simp only [collectKeywordUsageAux, Except.ok.injEq] at h
    rw [← h]
    exact hu
  | cons p ps ih =>
    intro u usage h hu
    cases hs : p.schema with
    | null => rw [collectKeywordUsageAux, hs] at h; exact absurd h (by simp)
    | obj fs =>
      rw [collectKeywordUsageAux, hs] at h
      exact ih _ _ h (foldKeys_no_excluded _ _ hu)
    | bool b =>
      rw [collectKeywordUsageAux, hs] at h
      exact ih _ _ h (foldKeys_no_excluded _ _ hu)
    | num n =>
      rw [collectKeywordUsageAux, hs] at h
      exact ih _ _ h (foldKeys_no_excluded _ _ hu)
    | str s =>
      rw [collectKeywordUsageAux, hs] at h
      exact ih _ _ h (foldKeys_no_excluded _ _ hu)
    | arr xs =>
      rw [collectKeywordUsageAux, hs] at h
      exact ih _ _ h (foldKeys_no_excluded _ _ hu)

/-- C8: keyword aggregation over object fragments with duplicate-free keys
(every JavaScript object satisfies this) excludes exactly the fixed keyword
set — no excluded key is ever recorded — and records for every other key a
count equal to the number of extracted properties whose own schema fragment
contains that key. -/
theorem c8_keyword_aggregation :
    ∀ (props : List ExtractedProperty) (usage : List (String × Nat)),
      props.all (fun p => wfFragment p.schema) = true →
      collectKeywordUsage props = .ok usage →
      usage.all (fun p => !(excludedKeywords.contains p.1)) = true ∧
      (∀ k, excludedKeywords.contains k = false →
        usageCount usage k = (props.filter (fun p => hasOwnKey p.schema k)).length) := by
  intro props usage hwf h
  constructor
  · exact collectAux_no_excluded props [] usage h rfl
  · intro k hk
    rw [collectAux_count props [] usage k hwf h hk]
    rw [show usageCount [] k = 0 from rfl]
    omega

/-- Witness for C8 at the spec's Scenario E: the fragment
`{type:"string", minLength:3, pattern:"^a"}` counts `type`, `minLength` and
`pattern` once each, and records no excluded key. -/
theorem c8_keyword_aggregation_witness :
    ([⟨Json.null, "a",
        Json.obj [("type", .str "string"), ("minLength", .num 3), ("pattern", .str "^a")],
        false⟩] : List ExtractedProperty).all (fun p => wfFragment p.schema) = true ∧
    collectKeywordUsage [⟨Json.null, "a",
        Json.obj [("type", .str "string"), ("minLength", .num 3), ("pattern", .str "^a")],
        false⟩] = .ok [("type", 1), ("minLength", 1), ("pattern", 1)] ∧
    excludedKeywords.contains "minLength" = false ∧
    usageCount [("type", 1), ("minLength", 1), ("pattern", 1)] "minLength" =
      (([⟨Json.null, "a",
          Json.obj [("type", .str "string"), ("minLength", .num 3), ("pattern", .str "^a")],
          false⟩] : List ExtractedProperty).filter
        (fun p => hasOwnKey p.schema "minLength")).length ∧
    ([("type", 1), ("minLength", 1), ("pattern", 1)] : List (String × Nat)).all
      (fun p => !(excludedKeywords.contains p.1)) = true := by
  refine ⟨by decide, rfl, by decide, ?_, ?_⟩
  · exact (c8_keyword_aggregation
      [⟨Json.null, "a",
        Json.obj [("type", .str "string"), ("minLength", .num 3), ("pattern", .str "^a")],
        false⟩]
      [("type", 1), ("minLength", 1), ("pattern", 1)]
      (by decide) rfl).2 "minLength" (by decide)
  · exact (c8_keyword_aggregation
      [⟨Json.null, "a",
        Json.obj [("type", .str "string"), ("minLength", .num 3), ("pattern", .str "^a")],
        false⟩]
      [("type", 1), ("minLength", 1), ("pattern", 1)]
      (by decide) rfl).1

/-! ### C2: extraction shape and order -/

theorem jsIterate_ok {v : Json} {es : List Json} (h : jsIterate v = .ok es) :
    es = iterElems v := by
  cases v <;> simp_all [jsIterate, iterElems]

theorem jsIncludes_ok {v : Json} {n : String} {b : Bool} (h : jsIncludes v n = .ok b) :
    b = jsIncludesPure v n := by
  cases v <;> simp_all [jsIncludes, jsIncludesPure]

theorem exMapM_ok_pointwise {f : α → Except Unit β} {g : α → β}
    (hfg : ∀ a b, f a = .ok b → b = g a) :
    ∀ {xs : List α} {ys : List β}, exMapM f xs = .ok ys → ys = xs.map g := by
  intro xs
  induction xs with
  | nil => intro ys h; simp [exMapM] at h; simp [← h]
  | cons a as ih =>
    intro ys h
    rw [exMapM] at h
    cases hfa : f a with
    | error e => rw [hfa] at h; exact absurd h (by simp)
    | ok b =>
      rw [hfa] at h
      cases hrest : exMapM f as with
      | error e => rw [hrest] at h; exact absurd h (by simp)
      | ok bs =>
        rw [hrest] at h
        simp only [Except.ok.injEq] at h
        rw [← h, List.map_cons, hfg a b hfa, ih hrest]

theorem walkPath_ok {cur : Json} {path : List String} {o : Option Json}
    (h : walkPath cur path = .ok o) : o = specWalk cur path := by
  induction path generalizing cur with
  | nil => simp_all [walkPath, specWalk]
  | cons seg rest ih =>
    rw [walkPath] at h
    rw [specWalk]
    cases hg : jsGetProp cur seg with
    | error e => rw [hg] at h; exact absurd h (by simp)
    | ok mv =>
      rw [hg] at h
      rw [← jsGetProp_ok hg]
      cases mv with
      | none => simp_all
      | some v =>
        dsimp only at h ⊢
        by_cases ht : truthy v = true
        · rw [ht] at h ⊢
          simp only [if_true]
          exact ih h
        · rw [Bool.not_eq_true] at ht
          rw [ht] at h ⊢
          simp_all

theorem resolveRefStr_ok {store : Store} {r : String} {base : Json} {o : Option Json}
    (h : resolveRefStr store r base = .ok o) :
    o = (if startsWithHash r then specResolveInternal r base
         else specResolveExternal store r) := by
  rw [resolveRefStr] at h
  by_cases hh : startsWithHash r = true
  · rw [if_pos hh] at h ⊢
    exact walkPath_ok h
  · rw [Bool.not_eq_true] at hh
    rw [hh] at h ⊢
    simp only [Bool.false_eq_true, if_false] at h ⊢
    cases hscan : externalScan r store with
    | error e => rw [hscan] at h; exact absurd h (by simp)
    | ok so =>
      rw [hscan] at h
      have hval := externalScan_ok hscan
      cases so with
      | some s =>
        simp only [Except.ok.injEq] at h
        rw [← h, specResolveExternal]
        cases hf : List.find? (scanPred r) store with
        | none => rw [hf] at hval; exact absurd hval (by simp)
        | some p => rw [hf] at hval; simp at hval; rw [hval]
      | none =>
        simp only [Except.ok.injEq] at h
        rw [← h, specResolveExternal]
        cases hf : List.find? (scanPred r) store with
        | some p => rw [hf] at hval; exact absurd hval (by simp)
        | none =>
          rw [externalScan_none_no_exact hscan]

theorem resolveRef_ok {store : Store} {rv base : Json} {o : Option Json}
    (h : resolveRef store rv base = .ok o) : o = specResolve store rv base := by
  cases rv <;> simp_all [resolveRef, specResolve]
  exact resolveRefStr_ok h

theorem extractDirect_ok {schema cat : Json} {l : List ExtractedProperty}
    (h : extractDirect schema cat = .ok l) :
    l = (match getMember schema "properties" with
         | some pv =>
           if truthy pv then
             (jsEntries pv).map (fun e =>
               ExtractedProperty.mk cat e.1 e.2 (specRequired schema e.1))
           else []
         | none => []) := by
  rw [extractDirect] at h
  cases hg : jsGetProp schema "properties" with
  | error e => rw [hg] at h; exact absurd h (by simp)
  | ok pvo =>
    rw [hg] at h
    rw [← jsGetProp_ok hg]
    cases pvo with
    | none => simp_all
    | some pv =>
      dsimp only at h ⊢
      by_cases ht : truthy pv = true
      · rw [ht] at h ⊢
        simp only [if_true] at h ⊢
        refine exMapM_ok_pointwise ?_ h
        intro e b hfe
        cases hr : jsGetProp schema "required" with
        | error err => rw [hr] at hfe; exact absurd hfe (by simp)
        | ok rvo =>
          rw [hr] at hfe
          have hrm := jsGetProp_ok hr
          cases rvo with
          | none =>
            dsimp only at hfe
            simp only [Except.ok.injEq] at hfe
            rw [← hfe, specRequired, ← hrm]
          | some rv =>
            dsimp only at hfe
            by_cases hn : rv.isNull = true
            · rw [hn] at hfe
              simp only [if_true, Except.ok.injEq] at hfe
              rw [← hfe, specRequired, ← hrm]
              dsimp only
              rw [hn]
              simp
            · rw [Bool.not_eq_true] at hn
              rw [hn] at hfe
              simp only [Bool.false_eq_true, if_false] at hfe
              cases hinc : jsIncludes rv e.1 with
              | error err => rw [hinc] at hfe; exact absurd hfe (by simp)
              | ok bb =>
                rw [hinc] at hfe
                simp only [Except.ok.injEq] at hfe
                rw [← hfe, specRequired, ← hrm]
                dsimp only
                rw [hn]
                simp only [Bool.false_eq_true, if_false]
                rw [jsIncludes_ok hinc]
      · rw [Bool.not_eq_true] at ht
        rw [ht] at h ⊢
        simp_all

theorem extractAllOfBranch_ok
    {store : Store} {recurE : Json → Json → Except Unit (List ExtractedProperty)}
    {recurP : Json → Json → List ExtractedProperty}
    (hrec : ∀ s c l, recurE s c = .ok l → l = recurP s c)
    {schema cat sub : Json} {l : List ExtractedProperty}
    (h : extractAllOfBranch store recurE schema cat sub = .ok l) :
    l = specBranch store recurP schema cat sub := by
  rw [extractAllOfBranch] at h
  rw [specBranch]
  cases hg : jsGetProp sub "$ref" with
  | error e => rw [hg] at h; exact absurd h (by simp)
  | ok rvo =>
    rw [hg] at h
    rw [← jsGetProp_ok hg]
    cases rvo with
    | none => exact hrec sub cat l h
    | some rv =>
      dsimp only at h ⊢
      by_cases ht : truthy rv = true
      · rw [ht] at h ⊢
        simp only [if_true] at h ⊢
        cases hres : resolveRef store rv schema with
        | error e => rw [hres] at h; exact absurd h (by simp)
        | ok ro =>
          rw [hres] at h
          rw [← resolveRef_ok hres]
          cases ro with
          | none => simp_all
          | some res =>
            dsimp only at h ⊢
            by_cases htr : truthy res = true
            · rw [htr] at h ⊢
              simp only [if_true] at h ⊢
              cases hti : jsGetProp res "title" with
              | error e => rw [hti] at h; exact absurd h (by simp)
              | ok tvo =>
                rw [hti] at h
                rw [← jsGetProp_ok hti]
                cases tvo with
                | none => exact hrec res cat l h
                | some t => exact hrec res _ l h
            · rw [Bool.not_eq_true] at htr
              rw [htr] at h ⊢
              simp_all
      · rw [Bool.not_eq_true] at ht
        rw [ht] at h ⊢
        simp only [Bool.false_eq_true, if_false] at h ⊢
        exact hrec sub cat l h

theorem extractAllOfBranches_ok
    {store : Store} {recurE : Json → Json → Except Unit (List ExtractedProperty)}
    {recurP : Json → Json → List ExtractedProperty}
    (hrec : ∀ s c l, recurE s c = .ok l → l = recurP s c) {schema cat : Json} :
    ∀ {branches : List Json} {l : List ExtractedProperty},
      extractAllOfBranches store recurE schema cat branches = .ok l →
      l = ((branches).map (specBranch store recurP schema cat)).flatten := by
  intro branches
  induction branches with
  | nil => intro l h; simp_all [extractAllOfBranches]
  | cons sub rest ih =>
    intro l h
    rw [extractAllOfBranches] at h
    cases hb : extractAllOfBranch store recurE schema cat sub with
    | error e => rw [hb] at h; exact absurd h (by simp)
    | ok part =>
      rw [hb] at h
      cases hr : extractAllOfBranches store recurE schema cat rest with
      | error e => rw [hr] at h; exact absurd h (by simp)
      | ok parts =>
        rw [hr] at h
        simp only [Except.ok.injEq] at h
        rw [← h, List.map_cons, List.flatten_cons,
          extractAllOfBranch_ok hrec hb, ih hr]

/-- C2 counterexample: the extraction order is *not* object key insertion
order — a property named `"0"` declared after `"b"` is still emitted first,
because the runtime enumerates array-index-like keys first. -/
theorem c2_counterexample :
    (extractProperties [] 1
      (.obj [("properties", .obj [("b", .obj []), ("0", .obj [])])]) .null).map
        (List.map (fun p => p.name)) = .ok ["0", "b"] ∧
    (["0", "b"] : List String) ≠ ["b", "0"] :=
  ⟨rfl, by decide⟩

/-- C2 (amended): whenever extraction returns, its result is exactly: one
row per entry of the node's `properties` in the runtime's own-property
enumeration order (array-index-like keys in ascending numeric order first,
then the remaining keys in insertion order) — with the current category, the
property's own fragment, and `required` from `required?.includes(name)` —
followed by the recursively extracted rows of each `allOf` branch in branch
order; a node with neither `properties` nor a (truthy) `allOf` yields the
empty sequence, and no deduplication is performed. -/
theorem c2_extraction_order :
    ∀ (store : Store) (fuel : Nat) (schema cat : Json) (l : List ExtractedProperty),
      extractProperties store fuel schema cat = .ok l →
      l = specExtract store fuel schema cat := by
  intro store fuel
  induction fuel with
  | zero => intro schema cat l h; exact absurd h (by simp [extractProperties])
  | succ f ih =>
    intro schema cat l h
    rw [extractProperties] at h
    rw [specExtract]
    cases hd : extractDirect schema cat with
    | error e => rw [hd] at h; exact absurd h (by simp)
    | ok direct =>
      rw [hd] at h
      cases ha : jsGetProp schema "allOf" with
      | error e => rw [ha] at h; exact absurd h (by simp)
      | ok avo =>
        rw [ha] at h
        rw [← jsGetProp_ok ha]
        cases avo with
        | none =>
          simp only [Except.ok.injEq] at h
          rw [← h, extractDirect_ok hd]
          simp
        | some av =>
          dsimp only at h ⊢
          by_cases ht : truthy av = true
          · rw [ht] at h ⊢
            simp only [if_true] at h ⊢
            cases hit : jsIterate av with
            | error e => rw [hit] at h; exact absurd h (by simp)
            | ok branches =>
              rw [hit] at h
              dsimp only at h
              cases hb : extractAllOfBranches store
                  (fun s c => extractProperties store f s c) schema cat branches with
              | error e => rw [hb] at h; exact absurd h (by simp)
              | ok parts =>
                rw [hb] at h
                simp only [Except.ok.injEq] at h
                rw [← h, extractDirect_ok hd, ← jsIterate_ok hit,
                  extractAllOfBranches_ok (fun s c l2 h2 => ih s c l2 h2) hb]
          · rw [Bool.not_eq_true] at ht
            rw [ht] at h ⊢
            simp only [Bool.false_eq_true, if_false] at h ⊢
            simp only [Except.ok.injEq] at h
            rw [← h, extractDirect_ok hd]
            simp

/-- Witness for C2 at a concrete input: a schema with direct properties, an
inline branch and a dangling reference branch extracts to the spec-side
sequence. -/
theorem c2_extraction_order_witness :
    extractProperties [] 3
      (.obj [("properties", .obj [("p", .obj [("type", .str "integer")])]),
             ("required", .arr [.str "p"]),
             ("allOf", .arr [
                .obj [("$ref", .str "missing.json")],
                .obj [("properties", .obj [("q", .obj [])])]])]) .null =
      .ok [⟨.null, "p", .obj [("type", .str "integer")], true⟩,
           ⟨.null, "q", .obj [], false⟩] ∧
    ([⟨.null, "p", .obj [("type", .str "integer")], true⟩,
      ⟨.null, "q", .obj [], false⟩] : List ExtractedProperty) =
      specExtract [] 3
        (.obj [("properties", .obj [("p", .obj [("type", .str "integer")])]),
               ("required", .arr [.str "p"]),
               ("allOf", .arr [
                  .obj [("$ref", .str "missing.json")],
                  .obj [("properties", .obj [("q", .obj [])])]])]) .null := by
  refine ⟨rfl, ?_⟩
  exact c2_extraction_order [] 3
    (.obj [("properties", .obj [("p", .obj [("type", .str "integer")])]),
           ("required", .arr [.str "p"]),
           ("allOf", .arr [
              .obj [("$ref", .str "missing.json")],
              .obj [("properties", .obj [("q", .obj [])])]])]) .null
    [⟨.null, "p", .obj [("type", .str "integer")], true⟩,
     ⟨.null, "q", .obj [], false⟩] rfl

/-! ### C9: CSV export format -/

theorem doubleQuotes_any_bad (cs : List Char) :
    (doubleQuotes cs).any badCsvChar = cs.any badCsvChar := by
  induction cs with
  | nil => rfl
  | cons c t ih =>
    rw [doubleQuotes, List.flatMap_cons, List.any_append, List.any_cons]
    rw [doubleQuotes] at ih
    rw [ih]
    by_cases hq : c = '"'
    · subst hq
      rfl
    · rw [if_neg (by simpa using hq), List.any_cons, List.any_nil]
      rw [Bool.or_false]

theorem doubleQuotes_id_of_no_bad (cs : List Char) (h : cs.any badCsvChar = false) :
    doubleQuotes cs = cs := by
  induction cs with
  | nil => rfl
  | cons c t ih =>
    rw [List.any_cons, Bool.or_eq_false_iff] at h
    rw [doubleQuotes, List.flatMap_cons]
    have hq : (c == '"') = false := by
      have := h.1
      rw [badCsvChar, Bool.or_eq_false_iff, Bool.or_eq_false_iff] at this
      exact this.2
    rw [if_neg (by rw [hq]; exact Bool.false_ne_true)]
    rw [List.singleton_append]
    rw [doubleQuotes] at ih
    rw [ih h.2]

theorem escapeCell_eq_specEscape (cell : Json) :
    escapeCell cell = specEscape (jsToString cell) := by
  rw [escapeCell, specEscape]
  rw [doubleQuotes_any_bad]
  by_cases h : (jsToString cell).data.any badCsvChar = true
  · rw [if_pos h, if_pos h]
  · rw [Bool.not_eq_true] at h
    rw [h]
    simp only [Bool.false_eq_true, if_false]
    rw [doubleQuotes_id_of_no_bad _ h]

theorem exportRows_eq (mc cols : List String) :
    ∀ (props : List ExtractedProperty) (cur : Json),
      exportRows mc cols cur props =
        (match exMapM (fun p => exMapM (cellValue mc p) cols) props with
         | .error e => .error e
         | .ok cellss => .ok (List.zipWith (fun c cells => c :: cells)
             (specCategoryColumn cur props) cellss)) := by
  intro props
  induction props with
  | nil => intro cur; rfl
  | cons p rest ih =>
    intro cur
    rw [exportRows, specCategoryColumn]
    have hcur : (if truthy p.category && !(sameValueZero p.category cur)
        then p.category else cur) = (if truthy p.category then p.category else cur) := by
      by_cases hs : sameValueZero p.category cur = true
      · rw [sameValueZero_eq hs]
        simp
      · rw [Bool.not_eq_true] at hs
        rw [hs]
        simp
    rw [hcur]
    rw [exMapM]
    cases hc : exMapM (cellValue mc p) cols with
    | error e => rfl
    | ok cells =>
      rw [ih (if truthy p.category then p.category else cur)]
      cases hrest : exMapM (fun p => exMapM (cellValue mc p) cols) rest with
      | error e => rfl
      | ok cellss => rfl

theorem formatCsv_eq_spec (rows : List (List Json)) :
    formatCsv rows = intercalateOwn "\n" (rows.map
      (fun r => intercalateOwn "," (r.map (fun cell => specEscape (jsToString cell))))) := by
  rw [formatCsv]
  have hesc : escapeCell = (fun cell => specEscape (jsToString cell)) :=
    funext escapeCell_eq_specEscape
  rw [hesc]

/-- C9 counterexample: the Category column is *sticky* — a row whose property
has no category repeats the previous category rather than holding the empty
string: with properties `[{category:"A", name:"x"}, {category:null,
name:"y"}]` the second data row begins with `A`, not with an empty cell. -/
theorem c9_counterexample :
    exportToCSV ["name"] (some ["name"])
      (some ⟨.str "T", .str "", [⟨.str "A", "x", .obj [], false⟩,
                                 ⟨.null, "y", .obj [], false⟩]⟩) =
      .ok "Category,Variable Name\nA,x\nA,y" ∧
    "Category,Variable Name\nA,x\nA,y" ≠ "Category,Variable Name\nA,x\n,y" := by
  constructor
  · simp [exportToCSV, exportRows, exMapM, cellValue, formatCsv, csvHeader, escapeCell,
      jsToString, doubleQuotes, intercalateOwn, displayOf, columnDisplays,
      sameValueZero, truthy, badCsvChar]
  · decide

/-- C9 (amended): the CSV export equals the spec-side format: a header whose
first column is `Category`, one data row per property whose first cell holds
the most recent truthy category (empty before any occurs — the column is
sticky, not per-row), every cell containing a newline, comma or double-quote
wrapped in double quotes with internal quotes doubled, cells comma-joined
and rows newline-joined. -/
theorem c9_csv_format (mc : List String) (sel : Option (List String))
    (data : Option TableData) :
    exportToCSV mc sel data = specExportToCSV mc sel data := by
  cases data with
  | none => rfl
  | some d =>
    simp only [exportToCSV, specExportToCSV]
    rw [exportRows_eq]
    cases hm : exMapM (fun p => exMapM (cellValue mc p)
        (match sel with
         | some cs => cs
         | none => mc)) d.properties with
    | error e => rfl
    | ok cellss =>
      dsimp only
      rw [formatCsv_eq_spec]

/-- Witness for C5 at a concrete input: `other.json` matches the stored
identifier `schemas/other.json` by the suffix heuristic. -/
theorem c5_external_resolution_witness :
    startsWithHash "other.json" = false ∧
    allStrKeys [(Json.str "schemas/other.json", Json.num 9)] = true ∧
    resolveRefStr [(Json.str "schemas/other.json", Json.num 9)] "other.json" Json.null =
      .ok (specResolveExternal [(Json.str "schemas/other.json", Json.num 9)] "other.json") ∧
    specResolveExternal [(Json.str "schemas/other.json", Json.num 9)] "other.json" =
      some (Json.num 9) := by
  refine ⟨rfl, rfl, ?_, rfl⟩
  exact c5_external_resolution [(Json.str "schemas/other.json", Json.num 9)]
    "other.json" Json.null rfl rfl
